import Mathlib

/-!
# gogin: the middleware chain of `gin.go`

A shallow embedding of `src/gin.go`: the response wrapper, the request context with its
`int8` cursor, the router-group tree and the engine, followed by theorems about them.

Conventions of the embedding.

* `int8` values are integers kept in range by `int8`, the two's-complement conversion of Go.
* A Go slice is the list of its elements: `append(a, b...)` yields a slice holding `a ++ b`.
* `interface{}` values are `Iface`, with `Iface.nil` for the nil interface.
* A value of the interface type `error` is an `Option GoError`: `none` is the nil error,
  `some e` an error whose `Error()` method returns the text `e.Error`.
* A handler is a Go function over `*Context`. Its body is a finite tree `Prog` of the
  context operations it performs, with tests on the state it can observe.
* The embedded `http.ResponseWriter` is the list of calls forwarded to it.
* The back-references `Context.engine` and `RouterGroup.engine`, the `httprouter` router and
  the template set are never read by the functions embedded here and are left out.
-/

namespace Gogin

/-! ## Data model -/

/-- Conversion to `int8`: wrap an integer into the range -128 .. 127. -/
def int8 (x : Int) : Int := (x + 128) % 256 - 128

/-- The constant `AbortIndex = math.MaxInt8 / 2`. -/
def AbortIndex : Int := 127 / 2

/-- Values of type `interface{}`. -/
inductive Iface where
  | nil
  | str (s : String)
  | num (n : Int)
  deriving DecidableEq, Repr

/-- The dynamic value of a non-nil `error`; `Error` is the text returned by its `Error()`
method. A Go value of type `error` is an `Option GoError`, with `none` for the nil error. -/
structure GoError where
  Error : String
  deriving DecidableEq, Repr

/-- The struct `ErrorMsg`. -/
structure ErrorMsg where
  Message : String
  Meta : Iface
  deriving DecidableEq, Repr

/-- A call received by the embedded `http.ResponseWriter`. -/
inductive SinkCall where
  | writeHeader (s : Int)
  | write (b : String)
  deriving DecidableEq, Repr

/-- The struct `responseWriter`: the embedded writer (as its call history) and `status`. -/
structure responseWriter where
  ResponseWriter : List SinkCall
  status : Int
  deriving DecidableEq, Repr

/-- A `map[string]interface{}`: the entry nearest the head is the live one for its key. -/
abbrev KeyMap := List (String × Iface)

/-- The request, reduced to the parts named in the source. -/
structure Request where
  Method : String
  Path : String
  Body : String
  deriving DecidableEq, Repr

/-- The body of a handler: the context operations it performs, in order. A `test` branches
on the state a handler can observe (writer, keys, errors). -/
inductive Prog where
  | ret
  | next (k : Prog)
  | abort (code : Int) (k : Prog)
  | error (err : Option GoError) (meta : Iface) (k : Prog)
  | fail (code : Int) (err : Option GoError) (k : Prog)
  | set (key : String) (item : Iface) (k : Prog)
  | get (key : String) (k : Prog)
  | writeHeader (code : Int) (k : Prog)
  | test (p : responseWriter → Option KeyMap → List ErrorMsg → Bool) (t e : Prog)

/-- A value of type `HandlerFunc`: the nil function or a function with a body. -/
inductive HandlerFunc where
  | nil
  | fn (body : Prog)

/-- The struct `Context`. `Keys = none` is the nil map. -/
structure Context where
  Req : Request
  Writer : responseWriter
  Keys : Option KeyMap
  Errors : List ErrorMsg
  Params : List (String × String)
  handlers : List HandlerFunc
  index : Int

/-- The struct `RouterGroup`: `root` has `parent == nil`, `child` has a parent. -/
inductive RouterGroup where
  | root (Handlers : List HandlerFunc) (pathPrefix : String)
  | child (Handlers : List HandlerFunc) (pathPrefix : String) (parent : RouterGroup)

/-- The struct `Engine`: the embedded root group and the not-found handlers. -/
structure Engine where
  group : RouterGroup
  handlers404 : List HandlerFunc

/-! ## Response wrapper -/

/-- `responseWriter.WriteHeader`: forward the call, then record the status. -/
def responseWriter.WriteHeader (rw : responseWriter) (s : Int) : responseWriter :=
  { ResponseWriter := rw.ResponseWriter ++ [SinkCall.writeHeader s], status := s }

/-- `responseWriter.Write`: forward the bytes. -/
def responseWriter.Write (rw : responseWriter) (b : String) : responseWriter :=
  { rw with ResponseWriter := rw.ResponseWriter ++ [SinkCall.write b] }

/-- `responseWriter.Status`. -/
def responseWriter.Status (rw : responseWriter) : Int := rw.status

/-- `responseWriter.Written`. -/
def responseWriter.Written (rw : responseWriter) : Bool := rw.status != 0

/-! ## Router groups and the engine -/

/-- The field `Handlers` of a group. -/
def RouterGroup.Handlers : RouterGroup → List HandlerFunc
  | .root hs _ => hs
  | .child hs _ _ => hs

/-- The field `parent` of a group. -/
def RouterGroup.parent : RouterGroup → Option RouterGroup
  | .root _ _ => none
  | .child _ _ p => some p

/-- The field of a group holding its path. -/
def RouterGroup.pathPrefix : RouterGroup → String
  | .root _ p => p
  | .child _ p _ => p

/-- `RouterGroup.createContext`: a fresh context with cursor -1. -/
def createContext (w : List SinkCall) (req : Request) (params : List (String × String))
    (handles : List HandlerFunc) : Context :=
  { Writer := { ResponseWriter := w, status := 0 }
    Req := req
    index := -1
    Params := params
    handlers := handles
    Keys := none
    Errors := [] }

/-- `RouterGroup.allHandlers`: prepend the own handlers, then ask the parent. -/
def RouterGroup.allHandlers : RouterGroup → List HandlerFunc → List HandlerFunc
  | .root hs _, handles => hs ++ handles
  | .child hs _ p, handles => p.allHandlers (hs ++ handles)

/-- `RouterGroup.Use`: append to the own handlers. -/
def RouterGroup.Use : RouterGroup → List HandlerFunc → RouterGroup
  | .root hs p, mws => .root (hs ++ mws) p
  | .child hs p g, mws => .child (hs ++ mws) p g

/-- `RouterGroup.Group`; `join` stands for `path.Join` of the standard library. -/
def RouterGroup.Group (join : String → String → String) (group : RouterGroup)
    (component : String) (handlers : List HandlerFunc) : RouterGroup :=
  .child handlers (join group.pathPrefix component) group

/-- `New`: an engine whose root group has no handlers and path "/". -/
def New : Engine :=
  { group := .root [] "/", handlers404 := [] }

/-- `Engine.Use` through the embedded group. -/
def Engine.Use (engine : Engine) (mws : List HandlerFunc) : Engine :=
  { engine with group := engine.group.Use mws }

/-- `Default`: `New` followed by `Use(nil)`, a call with the single argument nil. -/
def Default : Engine := New.Use [HandlerFunc.nil]

/-- `Engine.NotFound404`. -/
def Engine.NotFound404 (engine : Engine) (handles : List HandlerFunc) : Engine :=
  { engine with handlers404 := handles }

/-! ## Context operations -/

/-- `Context.Abort`. -/
def Context.Abort (c : Context) (code : Int) : Context :=
  { c with Writer := c.Writer.WriteHeader code, index := AbortIndex }

/-- `Context.Error`. The record is built from `err.Error()`, which panics on the nil error
before anything is appended: the result `none` is that panic. -/
def Context.Error (c : Context) (err : Option GoError) (meta : Iface) : Option Context :=
  match err with
  | none => none
  | some e => some { c with Errors := c.Errors ++ [{ Message := e.Error, Meta := meta }] }

/-- `Context.Fail`: `Error`, then `Abort`. When `Error` panics `Abort` is not reached. -/
def Context.Fail (c : Context) (code : Int) (err : Option GoError) : Option Context :=
  match c.Error err (Iface.str "Operation aborted") with
  | none => none
  | some c1 => some (c1.Abort code)

/-- `Context.Set`: allocate the map when it is nil, then store. -/
def Context.Set (c : Context) (key : String) (item : Iface) : Context :=
  let keys : KeyMap := match c.Keys with
    | none => []
    | some m => m
  { c with Keys := some ((key, item) :: keys) }

/-- `Context.Get`: `none` is the panic of `log.Panicf`. -/
def Context.Get (c : Context) (key : String) : Option Iface :=
  let found : Iface × Bool := match c.Keys with
    | some m => match m.lookup key with
      | some item => (item, true)
      | none => (Iface.nil, false)
    | none => (Iface.nil, false)
  if !found.2 || found.1 == Iface.nil then none else some found.1

/-! ## Chain execution -/

/-- What is observed of a run: `call j` when `handlers[j]` is invoked, `abort k` when
`Abort` is entered from the body of `handlers[k]` (directly or through `Fail`). -/
inductive Event where
  | call (pos : Nat)
  | abort (pos : Nat)
  deriving DecidableEq, Repr

/-- Why a run panicked. -/
inductive PanicKind where
  | indexOutOfRange
  | nilFunc
  | missingKey
  | nilError
  deriving DecidableEq, Repr

/-- How a run ended: it returned, it panicked, or the fuel of the model ran out. -/
inductive Outcome where
  | returned
  | panicked (why : PanicKind)
  | outOfFuel
  deriving DecidableEq, Repr

/-- The context together with the events observed so far, oldest first. -/
structure St where
  c : Context
  log : List Event

/-- The end of a run: its outcome and the state reached. -/
structure Res where
  out : Outcome
  st : St

/-- The two places control can be at: the loop test of `Next`, or inside the body of the
handler at position `pos` with `p` left to do. -/
inductive Ctl where
  | loop
  | body (pos : Nat) (p : Prog)

/-- The statement `c.index++` on the `int8` cursor. -/
def Context.incr (c : Context) : Context :=
  { c with index := int8 (c.index + 1) }

/-- Execution of `Next` and of handler bodies, with `fuel` bounding the nesting of the model.

At `Ctl.loop` control is at the test of `for ; c.index < s; c.index++`, with
`s := int8(len(c.handlers))`: when the test holds `c.handlers[c.index]` is evaluated (a
negative or too large index panics), the handler is called (nil panics) and after its
return the cursor is incremented and the test is taken again. At `Ctl.body` the next
operation of the running handler is performed; `next` is the re-entrant call of `Next`. -/
def run : Nat → Ctl → St → Res
  | 0, _, st => ⟨.outOfFuel, st⟩
  | fuel + 1, .loop, st =>
    if st.c.index < int8 st.c.handlers.length then
      if st.c.index < 0 then ⟨.panicked .indexOutOfRange, st⟩
      else
        match st.c.handlers[st.c.index.toNat]? with
        | none => ⟨.panicked .indexOutOfRange, st⟩
        | some .nil => ⟨.panicked .nilFunc, st⟩
        | some (.fn body) =>
          let r := run fuel (.body st.c.index.toNat body)
            ⟨st.c, st.log ++ [Event.call st.c.index.toNat]⟩
          match r.out with
          | .returned => run fuel .loop ⟨r.st.c.incr, r.st.log⟩
          | _ => r
    else ⟨.returned, st⟩
  | _ + 1, .body _ .ret, st => ⟨.returned, st⟩
  | fuel + 1, .body pos (.next k), st =>
    let r := run fuel .loop ⟨st.c.incr, st.log⟩
    match r.out with
    | .returned => run fuel (.body pos k) r.st
    | _ => r
  | fuel + 1, .body pos (.abort code k), st =>
    run fuel (.body pos k) ⟨st.c.Abort code, st.log ++ [Event.abort pos]⟩
  | fuel + 1, .body pos (.error err meta k), st =>
    match st.c.Error err meta with
    | none => ⟨.panicked .nilError, st⟩
    | some c => run fuel (.body pos k) ⟨c, st.log⟩
  | fuel + 1, .body pos (.fail code err k), st =>
    match st.c.Fail code err with
    | none => ⟨.panicked .nilError, st⟩
    | some c => run fuel (.body pos k) ⟨c, st.log ++ [Event.abort pos]⟩
  | fuel + 1, .body pos (.set key item k), st =>
    run fuel (.body pos k) ⟨st.c.Set key item, st.log⟩
  | fuel + 1, .body pos (.get key k), st =>
    match st.c.Get key with
    | none => ⟨.panicked .missingKey, st⟩
    | some _ => run fuel (.body pos k) st
  | fuel + 1, .body pos (.writeHeader code k), st =>
    run fuel (.body pos k) ⟨{ st.c with Writer := st.c.Writer.WriteHeader code }, st.log⟩
  | fuel + 1, .body pos (.test p t e), st =>
    if p st.c.Writer st.c.Keys st.c.Errors then run fuel (.body pos t) st
    else run fuel (.body pos e) st

/-- `Context.Next`: `c.index++`, then the loop. -/
def Context.Next (fuel : Nat) (c : Context) : Res :=
  run fuel .loop ⟨c.incr, []⟩

/-- The positions invoked, in the order of their invocation. -/
def calls : List Event → List Nat
  | [] => []
  | .call j :: es => j :: calls es
  | .abort _ :: es => calls es

/-- Standard library `http.NotFound` on the wrapper: `WriteHeader(404)`, then the text. -/
def httpNotFound (rw : responseWriter) : responseWriter :=
  (rw.WriteHeader 404).Write "404 page not found\n"

/-- `Engine.handle404`. The source has the call `c.Next()` commented out, so the chain is
resolved and the context built, and the only statement after that is the test of
`Written`. The result is the final context with the events observed. -/
def Engine.handle404 (engine : Engine) (w : List SinkCall) (req : Request) : St :=
  let handlers := engine.group.allHandlers engine.handlers404
  let c := createContext w req [] handlers
  if !c.Writer.Written then ⟨{ c with Writer := httpNotFound c.Writer }, []⟩
  else ⟨c, []⟩

/-- The dispatch closure registered by `RouterGroup.Handle` for the chain
`group.allHandlers(handlers)`: `group.createContext(w, req, params, handlers).Next()`. -/
def RouterGroup.Handle (group : RouterGroup) (handlers : List HandlerFunc)
    (fuel : Nat) (w : List SinkCall) (req : Request) (params : List (String × String)) : Res :=
  (createContext w req params (group.allHandlers handlers)).Next fuel

/-- A handler that performs no context operation. -/
def plain : HandlerFunc := .fn .ret

/-- A wrap-style handler: it calls `Next` and returns. -/
def wrap : HandlerFunc := .fn (.next .ret)

/-- The request used in examples. -/
def req0 : Request := { Method := "GET", Path := "/unknown", Body := "" }

/-- The groups from the root down to `g`, outermost first. -/
def RouterGroup.lineage : RouterGroup → List RouterGroup
  | .root hs p => [.root hs p]
  | .child hs p parent => parent.lineage ++ [.child hs p parent]

/-- A fresh context over no handlers, used in examples. -/
def ctx0 : Context := createContext [] req0 [] []

/-- A not-found handler that records the miss and writes nothing. -/
def logMiss : HandlerFunc := .fn (.error (some ⟨"no route"⟩) .nil .ret)

/-- A handler that aborts with status 403. -/
def forbid : HandlerFunc := .fn (.abort 403 .ret)

/-- Some handler has entered `Abort` in the run so far. -/
def aborted (log : List Event) : Prop := ∃ k, Event.abort k ∈ log

/-- No handler is invoked after an `Abort`. -/
def NoCallAfterAbort (log : List Event) : Prop :=
  ∀ pre k post, log = pre ++ Event.abort k :: post → ∀ j, Event.call j ∉ post

/-- What holds of the events of a run over a chain of `n` handlers, `n ≤ 64`. -/
structure LogOK (n : Nat) (log : List Event) : Prop where
  nodup : (calls log).Nodup
  bound : ∀ j ∈ calls log, j < n
  safe : NoCallAfterAbort log

/-- The invariant inside a handler body, for a chain of `n` handlers. -/
structure BodyInv (n : Nat) (st : St) : Prop where
  len : st.c.handlers.length = n
  lo : -128 ≤ st.c.index
  hi : st.c.index ≤ 127
  ok : LogOK n st.log
  le : ∀ j ∈ calls st.log, (j : Int) ≤ st.c.index
  ab : aborted st.log → 63 ≤ st.c.index

/-- The invariant at the loop test of `Next`, for a chain of `n` handlers. -/
structure LoopInv (n : Nat) (st : St) : Prop where
  len : st.c.handlers.length = n
  lo : -128 ≤ st.c.index
  hi : st.c.index ≤ 127
  ok : LogOK n st.log
  lt : 0 ≤ st.c.index → ∀ j ∈ calls st.log, (j : Int) < st.c.index
  ab : 0 ≤ st.c.index → aborted st.log → 64 ≤ st.c.index

/-- The invariant that belongs to a control point. -/
def CtlInv (n : Nat) : Ctl → St → Prop
  | .loop, st => LoopInv n st
  | .body _ _, st => BodyInv n st

/-- A handler that calls `Next` and then aborts with status 403. -/
def wrapAbort : HandlerFunc := .fn (.next (.abort 403 .ret))

/-- A body does not abort when it never calls `Abort` or `Fail`. It may call `Next`,
`Error`, `Set`, `Get` and `WriteHeader`, and branch. -/
def Prog.noAbort : Prog → Bool
  | .ret => true
  | .next k => k.noAbort
  | .abort _ _ => false
  | .error _ _ k => k.noAbort
  | .fail _ _ _ => false
  | .set _ _ k => k.noAbort
  | .get _ k => k.noAbort
  | .writeHeader _ k => k.noAbort
  | .test _ t e => t.noAbort && e.noAbort

/-- A handler does not abort when its body, if it has one, does not. -/
def HandlerFunc.noAbort : HandlerFunc → Bool
  | .nil => true
  | .fn body => body.noAbort

/-- The number of nodes of a body. -/
def Prog.size : Prog → Nat
  | .ret => 1
  | .next k => k.size + 1
  | .abort _ k => k.size + 1
  | .error _ _ k => k.size + 1
  | .fail _ _ k => k.size + 1
  | .set _ _ k => k.size + 1
  | .get _ k => k.size + 1
  | .writeHeader _ k => k.size + 1
  | .test _ t e => t.size + e.size + 1

/-- The number of nodes of the body of a handler. -/
def HandlerFunc.size : HandlerFunc → Nat
  | .nil => 0
  | .fn body => body.size

/-- Fuel that suffices for the loop of `Next` from cursor `i` on. -/
def loopFuel (H : List HandlerFunc) (i : Nat) : Nat :=
  1 + ((H.drop i).map (fun h => h.size + 1)).sum

/-- Fuel that suffices at the loop test with the `int8` cursor `i`. -/
def loopNeed (H : List HandlerFunc) (i : Int) : Nat :=
  if i < 0 then 1 else loopFuel H i.toNat

/-- Fuel that suffices for one `Next` call on a fresh context over the chain `H`. -/
def chainFuel (H : List HandlerFunc) : Nat := loopFuel H 0

/-- The invariant inside a handler body when no handler aborts. -/
structure CalmBody (H : List HandlerFunc) (st : St) : Prop where
  hs : st.c.handlers = H
  lo : 0 ≤ st.c.index
  hi : st.c.index ≤ 127
  seen : calls st.log = List.range (min (st.c.index.toNat + 1) H.length)

/-- The invariant at the loop test of `Next` when no handler aborts. -/
structure CalmLoop (H : List HandlerFunc) (st : St) : Prop where
  hs : st.c.handlers = H
  lo : -128 ≤ st.c.index
  hi : st.c.index ≤ 127
  seen : calls st.log
    = List.range (if st.c.index < 0 then H.length else min st.c.index.toNat H.length)

/-- What a run that started with cursor `i0` has achieved at its end when no handler
aborts: it did not run out of fuel; if it returned the invariant holds and the cursor did
not decrease; if it panicked on the cursor every position has been invoked, in order. -/
structure CalmPost (H : List HandlerFunc) (i0 : Int) (r : Res) : Prop where
  fuel : r.out ≠ Outcome.outOfFuel
  ret : r.out = Outcome.returned → CalmBody H r.st ∧ i0 ≤ r.st.c.index
  pan : r.out = Outcome.panicked PanicKind.indexOutOfRange →
    calls r.st.log = List.range H.length

/-- The outcome of `ParseBody`: the error it returns (`none` is the nil error) and, for
inspection, the values `Validate` was invoked with. -/
structure ParseResult where
  err : Option GoError
  validated : List Iface

/-- `Context.ParseBody`. `decode` stands for `json.NewDecoder(c.Req.Body).Decode(&item)`: from
the body and the target it yields the decoded item or an error. `validate` stands for the
function `Validate`, which is called in the source and declared outside it. -/
def Context.ParseBody (decode : String → Iface → Except GoError Iface)
    (validate : Context → Iface → Option GoError) (c : Context) (item : Iface) : ParseResult :=
  match decode c.Req.Body item with
  | .ok decoded => ⟨validate c decoded, [decoded]⟩
  | .error err => ⟨some err, []⟩

/-- `Context.EnsureBody`: `Fail(400, err)` when `ParseBody` returns an error. The source
declares a `bool` result and has no return statement, so only the context is modelled; the
result `none` is a panic inside `Fail`. -/
def Context.EnsureBody (decode : String → Iface → Except GoError Iface)
    (validate : Context → Iface → Option GoError) (c : Context) (item : Iface) :
    Option Context :=
  match (c.ParseBody decode validate item).err with
  | some err => c.Fail 400 (some err)
  | none => some c

/-- A decoder that fails on the empty body and yields the text of the body otherwise. -/
def decodeText (body : String) (_ : Iface) : Except GoError Iface :=
  if body = "" then .error ⟨"EOF"⟩ else .ok (.str body)

/-- A validator that accepts every value. -/
def validateAll (_ : Context) (_ : Iface) : Option GoError := none

/-- A context whose request has a body. -/
def ctxBody : Context :=
  createContext [] { Method := "POST", Path := "/items", Body := "tea" } [] []

/-! ## Slices with backing arrays

The list view of a slice gives the value `append` returns. To follow what later calls do
to a slice captured earlier, slices are also modelled with their backing arrays. -/

/-- A slice of handlers: the identity of its backing array, its length and its capacity.
All slices here start at the first slot of their array. -/
structure Slice where
  arr : Nat
  len : Nat
  cap : Nat
  deriving DecidableEq, Repr

/-- The backing arrays, by identity. A slot never written holds the nil function. -/
abbrev Heap := List (List HandlerFunc)

/-- The nil slice. -/
def nilSlice : Slice := ⟨0, 0, 0⟩

/-- The elements of a slice, read from its backing array. -/
def Heap.read (h : Heap) (s : Slice) : List HandlerFunc :=
  (h.getD s.arr []).take s.len

/-- The size classes of the Go allocator up to 32768 bytes, in bytes. -/
def sizeClasses : List Nat :=
  [8, 16, 24, 32, 48, 64, 80, 96, 112, 128, 144, 160, 176, 192, 208, 224, 240, 256, 288, 320,
    352, 384, 416, 448, 480, 512, 576, 640, 704, 768, 896, 1024, 1152, 1280, 1408, 1536,
    1792, 2048, 2304, 2688, 3072, 3200, 3456, 4096, 4864, 5120, 5376, 6144, 6528, 6784, 6912,
    8192, 9472, 9728, 10240, 10880, 12288, 13568, 14336, 16384, 18432, 19072, 20480, 21760,
    24576, 27264, 28672, 32768]

/-- The function `roundupsize` of the runtime: the smallest size class that holds `size`
bytes, or for a larger size the next multiple of the page size 8192. -/
def roundupsize (size : Nat) : Nat :=
  match sizeClasses.find? (fun c => decide (size ≤ c)) with
  | some c => c
  | none => (size + 8191) / 8192 * 8192

/-- The loop of `growslice` for an old capacity of 256 or more: the capacity grows by a
quarter plus 192 until the needed length fits. `fuel` bounds the iterations. -/
def growLoop : Nat → Nat → Nat → Nat
  | 0, newcap, _ => newcap
  | fuel + 1, newcap, needed =>
    if newcap < needed then growLoop fuel (newcap + (newcap + 768) / 4) needed else newcap

/-- The capacity `append` chooses when it must allocate, as `growslice` of the Go runtime
computes it for elements of 8 bytes, the size of a `HandlerFunc` (releases 1.18 to 1.21 on a
64-bit machine): the needed length when it exceeds twice the old capacity, twice the old
capacity below 256, the result of the growth loop otherwise; the byte size is then rounded
up by `roundupsize`. -/
def growCap (old needed : Nat) : Nat :=
  roundupsize
    ((if 2 * old < needed then needed
      else if old < 256 then 2 * old
      else growLoop needed old needed) * 8) / 8

/-- The builtin `append(s, xs...)`: when the elements fit into the capacity they are
written into the backing array of `s` after its length, and the result shares that array;
otherwise a new array is allocated and the elements of `s` are copied into it. -/
def goAppend (h : Heap) (s : Slice) (xs : List HandlerFunc) : Heap × Slice :=
  if s.len + xs.length ≤ s.cap then
    (h.set s.arr
        ((h.getD s.arr []).take s.len ++ xs ++ (h.getD s.arr []).drop (s.len + xs.length)),
      { s with len := s.len + xs.length })
  else
    (h ++ [h.read s ++ xs ++
        List.replicate (growCap s.cap (s.len + xs.length) - (s.len + xs.length))
          HandlerFunc.nil],
      ⟨h.length, s.len + xs.length, growCap s.cap (s.len + xs.length)⟩)

/-- The slice made for the arguments of a variadic call: a new array, exactly filled. -/
def allocArgs (h : Heap) (xs : List HandlerFunc) : Heap × Slice :=
  (h ++ [xs], ⟨h.length, xs.length, xs.length⟩)

/-- The struct `RouterGroup` with `Handlers` as a slice. -/
inductive SGroup where
  | root (Handlers : Slice) (pathPrefix : String)
  | child (Handlers : Slice) (pathPrefix : String) (parent : SGroup)

/-- `RouterGroup.allHandlers` on slices: `local := append(group.Handlers, handles...)`, then
the parent if there is one. The result is the new heap and the slice returned. -/
def SGroup.allHandlers : SGroup → Heap → Slice → Heap × Slice
  | .root hs _, h, handles => goAppend h hs (h.read handles)
  | .child hs _ p, h, handles =>
    p.allHandlers (goAppend h hs (h.read handles)).1 (goAppend h hs (h.read handles)).2

/-- `RouterGroup.Use` on slices: `group.Handlers = append(group.Handlers, middlewares...)`. -/
def SGroup.Use : SGroup → Heap → List HandlerFunc → Heap × SGroup
  | .root hs p, h, mws => ((goAppend h hs mws).1, .root (goAppend h hs mws).2 p)
  | .child hs p g, h, mws => ((goAppend h hs mws).1, .child (goAppend h hs mws).2 p g)

/-- `RouterGroup.Handle` called through `GET`, `POST`, ... with the route handlers as
arguments: the chain `group.allHandlers(handlers)` that the dispatch closure captures. -/
def SGroup.Handle (g : SGroup) (h : Heap) (handlers : List HandlerFunc) : Heap × Slice :=
  g.allHandlers (allocArgs h handlers).1 (allocArgs h handlers).2

/-- A route handler that writes status 201. -/
def created : HandlerFunc := .fn (.writeHeader 201 .ret)

/-- A route handler that writes status 202. -/
def accepted : HandlerFunc := .fn (.writeHeader 202 .ret)

/-- The root group of `New` after `Use(plain)`, `Use(wrap)`, `Use(logMiss)`. -/
def threeUses : Heap × SGroup :=
  (((SGroup.root nilSlice "/").Use [] [plain]).2.Use
      ((SGroup.root nilSlice "/").Use [] [plain]).1 [wrap]).2.Use
    (((SGroup.root nilSlice "/").Use [] [plain]).2.Use
      ((SGroup.root nilSlice "/").Use [] [plain]).1 [wrap]).1 [logMiss]

/-- The state after the route `GET /x` with `[created]` has been registered on that group,
with the chain its closure captured. -/
def routeX : Heap × Slice := threeUses.2.Handle threeUses.1 [created]

/-- The state after the route `GET /y` with `[accepted]` has then been registered on the
same group, with the chain its closure captured. -/
def routeY : Heap × Slice := threeUses.2.Handle routeX.1 [accepted]

/-- The state after `Use(forbid)` on the same group, following the registration of `/x`. -/
def laterUse : Heap × SGroup := threeUses.2.Use routeX.1 [forbid]

/-- The final status and the positions invoked when a request is dispatched to a chain. -/
def dispatch (chain : List HandlerFunc) : Int × List Nat :=
  (((createContext [] req0 [] chain).Next 16).st.c.Writer.Status,
    calls ((createContext [] req0 [] chain).Next 16).st.log)

/-- A slice is backed in a heap when its length is within its capacity and, unless the
capacity is zero, its array exists and has that capacity. -/
def Heap.backs (h : Heap) (s : Slice) : Prop :=
  s.len ≤ s.cap ∧ (s.cap = 0 ∨ (s.arr < h.length ∧ (h.getD s.arr []).length = s.cap))

/-- The largest number of `Next` calls a body can make. -/
def Prog.nexts : Prog → Nat
  | .ret => 0
  | .next k => k.nexts + 1
  | .abort _ k => k.nexts
  | .error _ _ k => k.nexts
  | .fail _ _ k => k.nexts
  | .set _ _ k => k.nexts
  | .get _ k => k.nexts
  | .writeHeader _ k => k.nexts
  | .test _ t e => max t.nexts e.nexts

/-- The largest number of `Next` calls a handler can make. -/
def HandlerFunc.nexts : HandlerFunc → Nat
  | .nil => 0
  | .fn body => body.nexts

/-- The `Next` calls the handlers from position `i` on can make, in total. -/
def nextsFrom (H : List HandlerFunc) (i : Nat) : Nat :=
  ((H.drop i).map HandlerFunc.nexts).sum

/-- A chain of 65 handlers whose last handler aborts. -/
def stuck : List HandlerFunc := List.replicate 64 plain ++ [forbid]

/-- A chain of 64 wrap-style handlers. -/
def wraps64 : List HandlerFunc := List.replicate 64 wrap

/-- A body cannot panic by itself when it never calls `Get` and never passes the nil error
to `Error` or `Fail`. -/
def Prog.panicFree : Prog → Bool
  | .ret => true
  | .next k => k.panicFree
  | .abort _ k => k.panicFree
  | .error err _ k => err.isSome && k.panicFree
  | .fail _ err k => err.isSome && k.panicFree
  | .set _ _ k => k.panicFree
  | .get _ _ => false
  | .writeHeader _ k => k.panicFree
  | .test _ t e => t.panicFree && e.panicFree

/-- A handler cannot panic by itself when it is a function (not nil) whose body cannot. -/
def HandlerFunc.panicFree : HandlerFunc → Bool
  | .nil => false
  | .fn body => body.panicFree

/-- The statements of `handle404` that follow the (commented-out) call of `Next`: the
default response is written when the wrapper is not written, and only then. -/
def default404 (c : Context) : Context :=
  if !c.Writer.Written then { c with Writer := httpNotFound c.Writer } else c

/-- The deepest nesting of re-entrant `Next` calls reached in a run, measured along the
execution `run`: the first `Next` call counts zero, a `Next` called from a handler body
counts one more than the deepest nesting reached inside it. -/
def nesting : Nat → Ctl → St → Nat
  | 0, _, _ => 0
  | fuel + 1, .loop, st =>
    if st.c.index < int8 st.c.handlers.length then
      if st.c.index < 0 then 0
      else
        match st.c.handlers[st.c.index.toNat]? with
        | none => 0
        | some .nil => 0
        | some (.fn body) =>
          max
            (nesting fuel (.body st.c.index.toNat body)
              ⟨st.c, st.log ++ [Event.call st.c.index.toNat]⟩)
            (match (run fuel (.body st.c.index.toNat body)
                ⟨st.c, st.log ++ [Event.call st.c.index.toNat]⟩).out with
              | .returned =>
                nesting fuel .loop
                  ⟨(run fuel (.body st.c.index.toNat body)
                      ⟨st.c, st.log ++ [Event.call st.c.index.toNat]⟩).st.c.incr,
                    (run fuel (.body st.c.index.toNat body)
                      ⟨st.c, st.log ++ [Event.call st.c.index.toNat]⟩).st.log⟩
              | _ => 0)
    else 0
  | _ + 1, .body _ .ret, _ => 0
  | fuel + 1, .body pos (.next k), st =>
    max (nesting fuel .loop ⟨st.c.incr, st.log⟩ + 1)
      (match (run fuel .loop ⟨st.c.incr, st.log⟩).out with
        | .returned => nesting fuel (.body pos k) (run fuel .loop ⟨st.c.incr, st.log⟩).st
        | _ => 0)
  | fuel + 1, .body pos (.abort code k), st =>
    nesting fuel (.body pos k) ⟨st.c.Abort code, st.log ++ [Event.abort pos]⟩
  | fuel + 1, .body pos (.error err meta k), st =>
    match st.c.Error err meta with
    | none => 0
    | some c => nesting fuel (.body pos k) ⟨c, st.log⟩
  | fuel + 1, .body pos (.fail code err k), st =>
    match st.c.Fail code err with
    | none => 0
    | some c => nesting fuel (.body pos k) ⟨c, st.log ++ [Event.abort pos]⟩
  | fuel + 1, .body pos (.set key item k), st =>
    nesting fuel (.body pos k) ⟨st.c.Set key item, st.log⟩
  | fuel + 1, .body pos (.get key k), st =>
    match st.c.Get key with
    | none => 0
    | some _ => nesting fuel (.body pos k) st
  | fuel + 1, .body pos (.writeHeader code k), st =>
    nesting fuel (.body pos k) ⟨{ st.c with Writer := st.c.Writer.WriteHeader code }, st.log⟩
  | fuel + 1, .body pos (.test p t e), st =>
    if p st.c.Writer st.c.Keys st.c.Errors then nesting fuel (.body pos t) st
    else nesting fuel (.body pos e) st

/-- The deepest nesting of re-entrant `Next` calls reached in the run of `c.Next()`. -/
def Context.NextDepth (fuel : Nat) (c : Context) : Nat :=
  nesting fuel .loop ⟨c.incr, []⟩

set_option maxRecDepth 100000

/-! ## Error and Fail: the nil error -/

theorem Error_some_iff (c c1 : Context) (err : Option GoError) (m : Iface) :
    c.Error err m = some c1 ↔
      ∃ e, err = some e ∧
        c1 = { c with Errors := c.Errors ++ [{ Message := e.Error, Meta := m }] } := by
  cases err with
  | none => simp [Context.Error]
  | some e =>
    simp only [Context.Error, Option.some.injEq]
    constructor
    · intro h
      exact ⟨e, rfl, h.symm⟩
    · rintro ⟨e2, he, h⟩
      cases he
      exact h.symm

theorem Error_frame (c c1 : Context) (err : Option GoError) (m : Iface)
    (h : c.Error err m = some c1) : c1.handlers = c.handlers ∧ c1.index = c.index := by
  obtain ⟨e, _, rfl⟩ := (Error_some_iff c c1 err m).mp h
  exact ⟨rfl, rfl⟩

theorem Fail_some_iff (c c1 : Context) (code : Int) (err : Option GoError) :
    c.Fail code err = some c1 ↔
      ∃ c0, c.Error err (Iface.str "Operation aborted") = some c0 ∧ c1 = c0.Abort code := by
  unfold Context.Fail
  cases c.Error err (Iface.str "Operation aborted") with
  | none => simp
  | some c0 =>
    simp only [Option.some.injEq]
    constructor
    · intro h
      exact ⟨c0, rfl, h.symm⟩
    · rintro ⟨c2, hc, h⟩
      cases hc
      exact h.symm

theorem Fail_frame (c c1 : Context) (code : Int) (err : Option GoError)
    (h : c.Fail code err = some c1) :
    ∃ c0 : Context, c0.handlers = c.handlers ∧ c1 = c0.Abort code := by
  obtain ⟨c0, h0, rfl⟩ := (Fail_some_iff c c1 code err).mp h
  exact ⟨c0, (Error_frame c c0 err _ h0).1, rfl⟩

theorem Fail_index (c c1 : Context) (code : Int) (err : Option GoError)
    (h : c.Fail code err = some c1) : c1.handlers = c.handlers ∧ c1.index = 63 := by
  obtain ⟨c0, h0, rfl⟩ := Fail_frame c c1 code err h
  exact ⟨h0, by show AbortIndex = 63; decide⟩

/-! ## Router groups: the resolved chain -/

theorem allHandlers_lineage (g : RouterGroup) (hs : List HandlerFunc) :
    g.allHandlers hs = (g.lineage.map RouterGroup.Handlers).flatten ++ hs := by
  induction g generalizing hs with
  | root own p => simp [RouterGroup.allHandlers, RouterGroup.lineage, RouterGroup.Handlers]
  | child own p parent ih =>
    simp [RouterGroup.allHandlers, RouterGroup.lineage, RouterGroup.Handlers, ih]

/-- C4: `allHandlers` resolves the chain outermost first: for the groups `g0, ..., gn = g`
from the root down to `g`, `g.allHandlers hs` is `g0.Handlers ++ ... ++ gn.Handlers ++ hs`;
the lineage of a child is the lineage of its parent followed by the child; and a group made
by `Group("/api", auth)` on the root of `New` resolves `[listItems]` to `[auth, listItems]`. -/
theorem C4_allHandlers_outer_to_inner :
    (∀ (g : RouterGroup) (hs : List HandlerFunc),
      g.allHandlers hs = (g.lineage.map RouterGroup.Handlers).flatten ++ hs) ∧
    (∀ (own : List HandlerFunc) (p : String) (parent : RouterGroup),
      (RouterGroup.child own p parent).lineage
        = parent.lineage ++ [RouterGroup.child own p parent]) ∧
    (∀ (join : String → String → String) (auth listItems : HandlerFunc),
      (New.group.Group join "/api" [auth]).allHandlers [listItems] = [auth, listItems]) :=
  ⟨allHandlers_lineage, fun _ _ _ => rfl, fun _ _ _ => rfl⟩

/-! ## Abort, Fail and the key store -/

/-- C5, as stated, fails: after `Abort(401)` then `Abort(500)` the wrapper reports 500. -/
theorem C5_first_writer_counterexample :
    ((ctx0.Abort 401).Abort 500).Writer.Status = 500 ∧
    ((ctx0.Abort 401).Abort 500).Writer.Status ≠ 401 := by
  decide

/-- C5, amended: after `Abort(a)` then `Abort(b)` the wrapper reports the status written
last, `b`; both `WriteHeader` calls reach the embedded writer in order; and the cursor is
`AbortIndex` after each of the two calls. -/
theorem C5_abort_twice_last_status (c : Context) (a b : Int) :
    ((c.Abort a).Abort b).Writer.Status = b ∧
    ((c.Abort a).Abort b).Writer.ResponseWriter
      = c.Writer.ResponseWriter ++ [SinkCall.writeHeader a, SinkCall.writeHeader b] ∧
    (c.Abort a).index = AbortIndex ∧
    ((c.Abort a).Abort b).index = AbortIndex := by
  simp [Context.Abort, responseWriter.WriteHeader, responseWriter.Status]

/-- C6, as stated, fails for the nil value: `Get` after `Set(k, nil)` panics. -/
theorem C6_get_after_set_nil_counterexample :
    (ctx0.Set "user" Iface.nil).Get "user" = none := by
  decide

/-- C6, amended: for every context, key and non-nil value `v`, `Get(k)` after `Set(k, v)`
returns `v` without panicking. -/
theorem C6_get_after_set (c : Context) (k : String) (v : Iface) (hv : v ≠ Iface.nil) :
    (c.Set k v).Get k = some v := by
  simp [Context.Set, Context.Get, List.lookup, hv]

theorem C6_get_after_set_witness :
    (ctx0.Set "user" (Iface.str "ann")).Get "user" = some (Iface.str "ann") :=
  C6_get_after_set ctx0 "user" (Iface.str "ann") (by decide)

theorem Get_nil_map (c : Context) (k : String) (h : c.Keys = none) : c.Get k = none := by
  simp [Context.Get, h]

theorem Get_missing (c : Context) (k : String) (m : KeyMap) (h : c.Keys = some m)
    (hl : m.lookup k = none) : c.Get k = none := by
  simp [Context.Get, h, hl]

theorem Get_stored (c : Context) (k : String) (m : KeyMap) (v : Iface) (h : c.Keys = some m)
    (hl : m.lookup k = some v) : c.Get k = if v = Iface.nil then none else some v := by
  simp [Context.Get, h, hl]

/-- C7: `Get(k)` panics exactly when `Keys` is nil, or `k` is not a key of `Keys`, or the
value stored under `k` is nil; it returns `v` exactly when `v` is the non-nil value stored
under `k`; and on a fresh context it panics for every key. -/
theorem C7_get_panics_iff (c : Context) (k : String) :
    (c.Get k = none ↔
      c.Keys = none ∨ (∃ m, c.Keys = some m ∧ m.lookup k = none) ∨
        (∃ m, c.Keys = some m ∧ m.lookup k = some Iface.nil)) ∧
    (∀ v, c.Get k = some v ↔ ∃ m, c.Keys = some m ∧ m.lookup k = some v ∧ v ≠ Iface.nil) ∧
    (∀ w req params hs, (createContext w req params hs).Get k = none) := by
  refine ⟨?_, ?_, fun _ _ _ _ => rfl⟩
  · cases hK : c.Keys with
    | none => exact ⟨fun _ => Or.inl rfl, fun _ => Get_nil_map c k hK⟩
    | some m =>
      cases hL : m.lookup k with
      | none =>
        exact ⟨fun _ => Or.inr (Or.inl ⟨m, rfl, hL⟩), fun _ => Get_missing c k m hK hL⟩
      | some item =>
        rw [Get_stored c k m item hK hL]
        by_cases hi : item = Iface.nil
        · subst hi
          exact ⟨fun _ => Or.inr (Or.inr ⟨m, rfl, hL⟩), fun _ => if_pos rfl⟩
        · rw [if_neg hi]
          constructor
          · intro h; cases h
          · rintro (h | ⟨m2, h1, h2⟩ | ⟨m2, h1, h2⟩)
            · cases h
            · cases h1; rw [hL] at h2; cases h2
            · cases h1; rw [hL] at h2; cases h2; exact absurd rfl hi
  · intro v
    cases hK : c.Keys with
    | none =>
      rw [Get_nil_map c k hK]
      constructor
      · intro h; cases h
      · rintro ⟨m, h, _⟩; cases h
    | some m =>
      cases hL : m.lookup k with
      | none =>
        rw [Get_missing c k m hK hL]
        constructor
        · intro h; cases h
        · rintro ⟨m2, h1, h2, _⟩; cases h1; rw [hL] at h2; cases h2
      | some item =>
        rw [Get_stored c k m item hK hL]
        by_cases hi : item = Iface.nil
        · rw [if_pos hi]
          constructor
          · intro h; cases h
          · rintro ⟨m2, h1, h2, h3⟩
            cases h1; rw [hL] at h2; cases h2; exact absurd hi h3
        · rw [if_neg hi]
          constructor
          · intro h; cases h; exact ⟨m, rfl, hL, hi⟩
          · rintro ⟨m2, h1, h2, _⟩
            cases h1; rw [hL] at h2; cases h2; rfl

/-- C8, as stated, fails for the nil error: `Fail(400, nil)` panics in `err.Error()` before
a record is appended, a status written or the cursor moved. -/
theorem C8_fail_nil_counterexample :
    ctx0.Fail 400 none = none ∧ ctx0.Error none (Iface.str "Operation aborted") = none := by
  exact ⟨rfl, rfl⟩

/-- C8, amended: for every context and every non-nil error `err`, `Fail(400, err)` does not
panic and leaves the wrapper with status 400 and written, the error list equal to the
previous one followed by the single record with message `err.Error()` and meta
"Operation aborted", and the cursor at `AbortIndex`, which is 63. -/
theorem C8_fail_records_then_aborts (c : Context) (err : Option GoError) (h : err ≠ none) :
    ∃ e c1, err = some e ∧ c.Fail 400 err = some c1 ∧
      c1.Writer.Status = 400 ∧
      c1.Writer.Written = true ∧
      c1.Errors = c.Errors ++ [{ Message := e.Error, Meta := Iface.str "Operation aborted" }] ∧
      c1.index = AbortIndex ∧ AbortIndex = 63 := by
  cases err with
  | none => exact absurd rfl h
  | some e =>
    refine ⟨e, _, rfl, rfl, rfl, ?_, rfl, rfl, by decide⟩
    simp [Context.Abort, responseWriter.WriteHeader, responseWriter.Written]

theorem C8_fail_records_then_aborts_witness :
    ∃ e c1, some (GoError.mk "bad input") = some e ∧
      ctx0.Fail 400 (some (GoError.mk "bad input")) = some c1 ∧
      c1.Writer.Status = 400 ∧
      c1.Writer.Written = true ∧
      c1.Errors
        = ctx0.Errors ++ [{ Message := e.Error, Meta := Iface.str "Operation aborted" }] ∧
      c1.index = AbortIndex ∧ AbortIndex = 63 :=
  C8_fail_records_then_aborts ctx0 (some (GoError.mk "bad input")) (by decide)

/-! ## The not-found path -/

/-- C9: `handle404` does not run the not-found chain. With the not-found chain `[logMiss]`
the chain is resolved to `[logMiss]`, yet after `handle404` no handler has been invoked, the
cursor is still -1 and no error is recorded, while the dispatch closure of `Handle` over the
same chain invokes position 0 and records the miss. -/
theorem C9_handle404_skips_chain :
    (New.NotFound404 [logMiss]).group.allHandlers (New.NotFound404 [logMiss]).handlers404
      = [logMiss] ∧
    calls ((New.NotFound404 [logMiss]).handle404 [] req0).log = [] ∧
    ((New.NotFound404 [logMiss]).handle404 [] req0).c.index = -1 ∧
    ((New.NotFound404 [logMiss]).handle404 [] req0).c.Errors = [] ∧
    calls (New.group.Handle [logMiss] 4 [] req0 []).st.log = [0] ∧
    (New.group.Handle [logMiss] 4 [] req0 []).st.c.Errors
      = [{ Message := "no route", Meta := Iface.nil }] := by
  refine ⟨rfl, rfl, rfl, rfl, ?_, ?_⟩ <;> decide

/-- With the not-found chain `[forbid]`, whose handler would call `Abort(403)`, `handle404`
ends with status 404 and the default response written to the embedded writer, because the
chain is not advanced; the dispatch closure of `Handle` over the same chain ends with
status 403. -/
theorem handle404_default_despite_abort :
    ((New.NotFound404 [forbid]).handle404 [] req0).c.Writer.Status = 404 ∧
    ((New.NotFound404 [forbid]).handle404 [] req0).c.Writer.ResponseWriter
      = [SinkCall.writeHeader 404, SinkCall.write "404 page not found\n"] ∧
    (New.group.Handle [forbid] 4 [] req0 []).out = Outcome.returned ∧
    (New.group.Handle [forbid] 4 [] req0 []).st.c.Writer.Status = 403 := by
  refine ⟨rfl, ?_, ?_, ?_⟩ <;> decide

theorem default404_written (c : Context) (h : c.Writer.Status ≠ 0) : default404 c = c := by
  have hw : c.Writer.Written = true := by
    simpa [responseWriter.Written, responseWriter.Status] using h
  simp [default404, hw]

theorem default404_unwritten (c : Context) (h : c.Writer.Status = 0) :
    default404 c = { c with Writer := httpNotFound c.Writer } := by
  have hw : c.Writer.Written = false := by
    simp only [responseWriter.Status] at h
    simp [responseWriter.Written, h]
  simp [default404, hw]

/-- C10: the default not-found response is emitted only when the wrapper is not written.
`handle404` ends with the statements `default404` on the context it built. On a context
whose wrapper has a status `s ≠ 0`, for instance after `Abort(s)`, these statements change
nothing: the status stays `s` and nothing is sent to the embedded writer. On a context whose
status is 0 they write the default response: status 404, `Written()` true, `WriteHeader(404)`
and the text sent to the embedded writer. In `handle404` itself no handler has written when
the test is taken, so it always ends with status 404 and `Written()` true. -/
theorem C10_default_only_when_unwritten :
    (∀ (engine : Engine) (w : List SinkCall) (req : Request),
      (engine.handle404 w req).c
        = default404 (createContext w req [] (engine.group.allHandlers engine.handlers404))) ∧
    (∀ (c : Context) (s : Int), s ≠ 0 → c.Writer.Status = s →
      default404 c = c ∧ (default404 c).Writer.Status = s ∧
      (default404 c).Writer.ResponseWriter = c.Writer.ResponseWriter) ∧
    (∀ (c : Context) (s : Int), s ≠ 0 →
      default404 (c.Abort s) = c.Abort s ∧ (default404 (c.Abort s)).Writer.Status = s ∧
      (default404 (c.Abort s)).Writer.ResponseWriter
        = c.Writer.ResponseWriter ++ [SinkCall.writeHeader s]) ∧
    (∀ c : Context, c.Writer.Status = 0 →
      (default404 c).Writer.Status = 404 ∧ (default404 c).Writer.Written = true ∧
      (default404 c).Writer.ResponseWriter
        = c.Writer.ResponseWriter
          ++ [SinkCall.writeHeader 404, SinkCall.write "404 page not found\n"]) ∧
    (∀ (engine : Engine) (w : List SinkCall) (req : Request),
      (engine.handle404 w req).c.Writer.Status = 404 ∧
      (engine.handle404 w req).c.Writer.Written = true) := by
  refine ⟨fun _ _ _ => rfl, ?_, ?_, ?_, fun _ _ _ => ⟨rfl, rfl⟩⟩
  · intro c s hs hc
    have h := default404_written c (by rw [hc]; exact hs)
    rw [h]
    exact ⟨rfl, hc, rfl⟩
  · intro c s hs
    have h := default404_written (c.Abort s) (by
      show s ≠ 0
      exact hs)
    rw [h]
    exact ⟨rfl, rfl, rfl⟩
  · intro c hc
    rw [default404_unwritten c hc]
    refine ⟨rfl, rfl, ?_⟩
    simp [httpNotFound, responseWriter.WriteHeader, responseWriter.Write]

theorem C10_default_only_when_unwritten_witness :
    default404 (ctx0.Abort 403) = ctx0.Abort 403 ∧
    (default404 (ctx0.Abort 403)).Writer.Status = 403 ∧
    (default404 (ctx0.Abort 403)).Writer.ResponseWriter
      = ctx0.Writer.ResponseWriter ++ [SinkCall.writeHeader 403] ∧
    (default404 ctx0).Writer.Status = 404 :=
  ⟨(C10_default_only_when_unwritten.2.2.1 ctx0 403 (by decide)).1,
    (C10_default_only_when_unwritten.2.2.1 ctx0 403 (by decide)).2.1,
    (C10_default_only_when_unwritten.2.2.1 ctx0 403 (by decide)).2.2,
    (C10_default_only_when_unwritten.2.2.2.1 ctx0 rfl).1⟩

/-! ## Chain execution: events -/

theorem calls_append (l1 l2 : List Event) : calls (l1 ++ l2) = calls l1 ++ calls l2 := by
  induction l1 with
  | nil => rfl
  | cons e es ih => cases e <;> simp [calls, ih]

theorem calls_snoc_call (log : List Event) (j : Nat) :
    calls (log ++ [Event.call j]) = calls log ++ [j] := by
  simp [calls_append, calls]

theorem calls_snoc_abort (log : List Event) (k : Nat) :
    calls (log ++ [Event.abort k]) = calls log := by
  simp [calls_append, calls]

theorem mem_calls (log : List Event) (j : Nat) : j ∈ calls log ↔ Event.call j ∈ log := by
  induction log with
  | nil => simp [calls]
  | cons e es ih => cases e <;> simp [calls, ih]

theorem aborted_snoc_call (log : List Event) (j : Nat) :
    aborted (log ++ [Event.call j]) ↔ aborted log := by
  simp [aborted]

theorem noCallAfterAbort_nil : NoCallAfterAbort [] := by
  intro pre k post h
  simp at h

theorem snoc_split (log pre post : List Event) (e a : Event)
    (h : log ++ [e] = pre ++ a :: post) :
    (post = [] ∧ log = pre ∧ e = a) ∨ ∃ post1, post = post1 ++ [e] ∧ log = pre ++ a :: post1 := by
  rcases List.eq_nil_or_concat post with rfl | ⟨post1, b, rfl⟩
  · left
    have h2 : log ++ [e] = pre ++ [a] := h
    have := List.append_inj' h2 rfl
    exact ⟨rfl, this.1, by simpa using this.2⟩
  · right
    have h2 : log ++ [e] = (pre ++ a :: post1) ++ [b] := by simpa using h
    have := List.append_inj' h2 rfl
    have hb : e = b := by simpa using this.2
    exact ⟨post1, by rw [hb]; simp, this.1⟩

theorem noCallAfterAbort_snoc_abort (log : List Event) (k : Nat) (h : NoCallAfterAbort log) :
    NoCallAfterAbort (log ++ [Event.abort k]) := by
  intro pre k1 post hsplit j hj
  rcases snoc_split log pre post _ _ hsplit with ⟨rfl, _, _⟩ | ⟨post1, rfl, hlog⟩
  · simp at hj
  · rcases List.mem_append.mp hj with hj | hj
    · exact h pre k1 post1 hlog j hj
    · simp at hj

theorem noCallAfterAbort_snoc_call (log : List Event) (i : Nat)
    (hna : ¬ aborted log) : NoCallAfterAbort (log ++ [Event.call i]) := by
  intro pre k1 post hsplit j _
  rcases snoc_split log pre post _ _ hsplit with ⟨_, _, he⟩ | ⟨post1, _, hlog⟩
  · cases he
  · exact hna ⟨k1, by rw [hlog]; simp⟩

/-! ## Chain execution: chains of at most 64 handlers -/

theorem int8_of_range (x : Int) (h1 : -128 ≤ x) (h2 : x ≤ 127) : int8 x = x := by
  unfold int8
  omega

theorem int8_bounds (x : Int) : -128 ≤ int8 x ∧ int8 x ≤ 127 := by
  unfold int8
  omega

theorem AbortIndex_eq : AbortIndex = 63 := by decide

theorem bodyInv_incr (n : Nat) (st : St) (h : BodyInv n st) :
    LoopInv n ⟨st.c.incr, st.log⟩ := by
  have hb := int8_bounds (st.c.index + 1)
  refine ⟨h.len, hb.1, hb.2, h.ok, ?_, ?_⟩
  · intro h0 j hj
    have := h.le j hj
    by_cases h127 : st.c.index = 127
    · exfalso
      simp only [Context.incr, h127] at h0
      revert h0
      decide
    · have hi := h.hi
      have hlo := h.lo
      have : int8 (st.c.index + 1) = st.c.index + 1 := int8_of_range _ (by omega) (by omega)
      simp only [Context.incr, this]
      omega
  · intro h0 ha
    have := h.ab ha
    by_cases h127 : st.c.index = 127
    · exfalso
      simp only [Context.incr, h127] at h0
      revert h0
      decide
    · have hi := h.hi
      have : int8 (st.c.index + 1) = st.c.index + 1 := int8_of_range _ (by omega) (by omega)
      simp only [Context.incr, this]
      omega

theorem bodyInv_frame (n : Nat) (st : St) (c : Context) (h : BodyInv n st)
    (hl : c.handlers = st.c.handlers) (hi : c.index = st.c.index) : BodyInv n ⟨c, st.log⟩ := by
  refine ⟨?_, ?_, ?_, h.ok, ?_, ?_⟩
  · simpa [hl] using h.len
  · simpa [hi] using h.lo
  · simpa [hi] using h.hi
  · simpa [hi] using h.le
  · simpa [hi] using h.ab

theorem bodyInv_abort (n : Nat) (hn : n ≤ 64) (st : St) (c : Context) (code : Int) (pos : Nat)
    (h : BodyInv n st) (hl : c.handlers = st.c.handlers) :
    BodyInv n ⟨c.Abort code, st.log ++ [Event.abort pos]⟩ := by
  refine ⟨?_, ?_, ?_, ⟨?_, ?_, ?_⟩, ?_, ?_⟩
  · simpa [Context.Abort, hl] using h.len
  · simp [Context.Abort, AbortIndex_eq]
  · simp [Context.Abort, AbortIndex_eq]
  · simpa [calls_snoc_abort] using h.ok.nodup
  · simpa [calls_snoc_abort] using h.ok.bound
  · exact noCallAfterAbort_snoc_abort _ _ h.ok.safe
  · intro j hj
    rw [calls_snoc_abort] at hj
    have := h.ok.bound j hj
    simp only [Context.Abort, AbortIndex_eq]
    omega
  · intro _
    simp [Context.Abort, AbortIndex_eq]

theorem loopInv_call (n : Nat) (hn : n ≤ 64) (st : St) (h : LoopInv n st)
    (h0 : 0 ≤ st.c.index) (hlt : st.c.index < int8 st.c.handlers.length) :
    BodyInv n ⟨st.c, st.log ++ [Event.call st.c.index.toNat]⟩ := by
  have hs : int8 (st.c.handlers.length : Int) = n := by
    rw [h.len]
    exact int8_of_range _ (by omega) (by omega)
  rw [hs] at hlt
  have hna : ¬ aborted st.log := fun ha => by
    have := h.ab h0 ha
    omega
  have hlt2 := h.lt h0
  refine ⟨h.len, h.lo, h.hi, ⟨?_, ?_, ?_⟩, ?_, ?_⟩
  · rw [calls_snoc_call]
    refine List.Nodup.append h.ok.nodup (List.nodup_singleton _) ?_
    intro a ha hb
    have hab : a = st.c.index.toNat := by simpa using hb
    have := hlt2 a ha
    omega
  · intro j hj
    rw [calls_snoc_call] at hj
    rcases List.mem_append.mp hj with hj | hj
    · exact h.ok.bound j hj
    · simp at hj
      omega
  · exact noCallAfterAbort_snoc_call _ _ hna
  · intro j hj
    rw [calls_snoc_call] at hj
    rcases List.mem_append.mp hj with hj | hj
    · exact le_of_lt (hlt2 j hj)
    · simp at hj
      show (j : Int) ≤ st.c.index
      omega
  · intro ha
    exact absurd ((aborted_snoc_call _ _).mp ha) hna

theorem loopInv_exit (n : Nat) (st : St) (h : LoopInv n st) (hn : n ≤ 64)
    (hge : ¬ st.c.index < int8 st.c.handlers.length) : BodyInv n st := by
  have hs : int8 (st.c.handlers.length : Int) = n := by
    rw [h.len]
    exact int8_of_range _ (by omega) (by omega)
  rw [hs] at hge
  have h0 : 0 ≤ st.c.index := by omega
  refine ⟨h.len, h.lo, h.hi, h.ok, ?_, ?_⟩
  · intro j hj
    exact le_of_lt (h.lt h0 j hj)
  · intro ha
    have := h.ab h0 ha
    omega

theorem ctlInv_ok (n : Nat) (ctl : Ctl) (st : St) (h : CtlInv n ctl st) : LogOK n st.log := by
  cases ctl with
  | loop => exact h.ok
  | body pos p => exact h.ok

/-- Runs over a chain of at most 64 handlers keep the invariants, whatever the fuel. -/
theorem run_safe (n : Nat) (hn : n ≤ 64) : ∀ (fuel : Nat) (ctl : Ctl) (st : St),
    CtlInv n ctl st →
    LogOK n (run fuel ctl st).st.log ∧
      ((run fuel ctl st).out = Outcome.returned → BodyInv n (run fuel ctl st).st) := by
  intro fuel
  induction fuel with
  | zero =>
    intro ctl st h
    simp only [run]
    exact ⟨ctlInv_ok n ctl st h, fun h => by cases h⟩
  | succ f ih =>
    intro ctl st h
    cases ctl with
    | loop =>
      have hL : LoopInv n st := h
      simp only [run]
      by_cases hlt : st.c.index < int8 st.c.handlers.length
      · rw [if_pos hlt]
        by_cases hneg : st.c.index < 0
        · rw [if_pos hneg]
          exact ⟨hL.ok, fun h => by cases h⟩
        · rw [if_neg hneg]
          cases hget : st.c.handlers[st.c.index.toNat]? with
          | none => exact ⟨hL.ok, fun h => by cases h⟩
          | some hf =>
            cases hf with
            | nil => exact ⟨hL.ok, fun h => by cases h⟩
            | fn body =>
              have hB := loopInv_call n hn st hL (by omega) hlt
              have h1 := ih (Ctl.body st.c.index.toNat body) _ hB
              simp only
              cases hout : (run f (Ctl.body st.c.index.toNat body)
                  ⟨st.c, st.log ++ [Event.call st.c.index.toNat]⟩).out with
              | returned =>
                simp only
                exact ih Ctl.loop _ (bodyInv_incr n _ (h1.2 hout))
              | panicked why => exact ⟨h1.1, fun h => by rw [hout] at h; cases h⟩
              | outOfFuel => exact ⟨h1.1, fun h => by rw [hout] at h; cases h⟩
      · rw [if_neg hlt]
        exact ⟨hL.ok, fun _ => loopInv_exit n st hL hn hlt⟩
    | body pos p =>
      have hB : BodyInv n st := h
      cases p with
      | ret =>
        simp only [run]
        exact ⟨hB.ok, fun _ => hB⟩
      | next k =>
        simp only [run]
        have h1 := ih Ctl.loop _ (bodyInv_incr n st hB)
        cases hout : (run f Ctl.loop ⟨st.c.incr, st.log⟩).out with
        | returned =>
          simp only
          exact ih (Ctl.body pos k) _ (h1.2 hout)
        | panicked why => exact ⟨h1.1, fun h => by rw [hout] at h; cases h⟩
        | outOfFuel => exact ⟨h1.1, fun h => by rw [hout] at h; cases h⟩
      | abort code k =>
        simp only [run]
        exact ih (Ctl.body pos k) _ (bodyInv_abort n hn st st.c code pos hB rfl)
      | error err meta k =>
        simp only [run]
        cases herr : st.c.Error err meta with
        | none => exact ⟨hB.ok, fun h => by cases h⟩
        | some c1 =>
          obtain ⟨e, -, rfl⟩ := (Error_some_iff _ _ _ _).mp herr
          simp only
          exact ih (Ctl.body pos k) _ (bodyInv_frame n st
            { st.c with Errors := st.c.Errors ++ [{ Message := e.Error, Meta := meta }] } hB rfl rfl)
      | fail code err k =>
        simp only [run]
        cases herr : st.c.Fail code err with
        | none => exact ⟨hB.ok, fun h => by cases h⟩
        | some c1 =>
          obtain ⟨c0, h0, rfl⟩ := (Fail_some_iff _ _ _ _).mp herr
          obtain ⟨e, -, rfl⟩ := (Error_some_iff _ _ _ _).mp h0
          simp only
          exact ih (Ctl.body pos k) _ (bodyInv_abort n hn st
            { st.c with Errors := st.c.Errors ++ [{ Message := e.Error, Meta := Iface.str "Operation aborted" }] }
            code pos hB rfl)
      | set key item k =>
        simp only [run]
        exact ih (Ctl.body pos k) _ (bodyInv_frame n st _ hB rfl rfl)
      | get key k =>
        simp only [run]
        cases st.c.Get key with
        | none => exact ⟨hB.ok, fun h => by cases h⟩
        | some v => exact ih (Ctl.body pos k) _ hB
      | writeHeader code k =>
        simp only [run]
        exact ih (Ctl.body pos k) _ (bodyInv_frame n st _ hB rfl rfl)
      | test p t e =>
        simp only [run]
        by_cases hp : p st.c.Writer st.c.Keys st.c.Errors = true
        · rw [if_pos hp]
          exact ih (Ctl.body pos t) _ hB
        · rw [if_neg hp]
          exact ih (Ctl.body pos e) _ hB

theorem fresh_loopInv (w : List SinkCall) (req : Request) (params : List (String × String))
    (H : List HandlerFunc) : LoopInv H.length ⟨(createContext w req params H).incr, []⟩ := by
  refine ⟨rfl, by show -128 ≤ int8 (-1 + 1); decide, by show int8 (-1 + 1) ≤ 127; decide,
    ⟨List.nodup_nil, ?_, noCallAfterAbort_nil⟩, ?_, ?_⟩
  · intro j hj
    simp [calls] at hj
  · intro _ j hj
    simp [calls] at hj
  · rintro _ ⟨k, hk⟩
    simp at hk

/-- C1, as stated, fails for a chain of 65 handlers: `handlers[0]` calls `Abort(403)`, the
cursor becomes 63, the loop increments it to 64 and `handlers[64]` is invoked afterwards. -/
theorem C1_abort_counterexample :
    (forbid :: List.replicate 64 plain).length = 65 ∧
    ((createContext [] req0 [] (forbid :: List.replicate 64 plain)).Next 8).out
      = Outcome.returned ∧
    ((createContext [] req0 [] (forbid :: List.replicate 64 plain)).Next 8).st.log
      = [Event.call 0] ++ Event.abort 0 :: [Event.call 64] := by
  decide

/-- C1, amended: for every chain of at most 64 handlers, every fresh context and every
extent of the run started by one `Next` call, once `handlers[k]` has entered `Abort` no
`handlers[j]` with `j > k` is invoked afterwards, whatever the handlers at other positions
do (re-entrant `Next` included). -/
theorem C1_abort_blocks_later (H : List HandlerFunc) (hH : H.length ≤ 64)
    (w : List SinkCall) (req : Request) (params : List (String × String)) (fuel : Nat)
    (pre post : List Event) (k : Nat)
    (hlog : ((createContext w req params H).Next fuel).st.log = pre ++ Event.abort k :: post) :
    ∀ j, k < j → Event.call j ∉ post :=
  fun j _ => (run_safe H.length hH fuel Ctl.loop _ (fresh_loopInv w req params H)).1.safe
    pre k post hlog j

theorem C1_abort_blocks_later_witness :
    Event.call 2 ∉ [Event.abort 0] :=
  C1_abort_blocks_later [.fn (.next (.fail 500 (some ⟨"late"⟩) .ret)), .fn (.abort 401 .ret),
      plain]
    (by decide) [] req0 [] 9 [Event.call 0, Event.call 1] [Event.abort 0] 1 (by decide)
    2 (by decide)

/-- C3, as stated, fails for a chain of 65 handlers: `handlers[0]` calls `Next`, which
invokes positions 1 to 64, then calls `Abort`; the cursor drops to 63, the loop increments
it to 64 and `handlers[64]` is invoked a second time. -/
theorem C3_twice_counterexample :
    (wrapAbort :: List.replicate 64 plain).length = 65 ∧
    ((createContext [] req0 [] (wrapAbort :: List.replicate 64 plain)).Next 80).out
      = Outcome.returned ∧
    calls ((createContext [] req0 [] (wrapAbort :: List.replicate 64 plain)).Next 80).st.log
      = List.range 65 ++ [64] ∧
    (List.range 65 ++ [64]).count 64 = 2 := by
  decide

/-- C3, amended: for every chain of at most 64 handlers, whatever its handlers do with
`Next`, `Abort` and `Fail`, no position is invoked more than once during the run started by
one `Next` call on a fresh context, at every extent of that run. -/
theorem C3_at_most_once (H : List HandlerFunc) (hH : H.length ≤ 64)
    (w : List SinkCall) (req : Request) (params : List (String × String)) (fuel : Nat) (j : Nat) :
    (calls ((createContext w req params H).Next fuel).st.log).count j ≤ 1 :=
  List.nodup_iff_count_le_one.mp
    (run_safe H.length hH fuel Ctl.loop _ (fresh_loopInv w req params H)).1.nodup j

theorem C3_at_most_once_witness :
    (calls ((createContext [] req0 [] [wrapAbort, wrap, forbid, plain]).Next 12).st.log).count 2
      ≤ 1 :=
  C3_at_most_once [wrapAbort, wrap, forbid, plain] (by decide) [] req0 [] 12 2

/-! ## Chain execution: chains in which no handler aborts -/

theorem loopFuel_pos (H : List HandlerFunc) (i : Nat) : 1 ≤ loopFuel H i := by
  unfold loopFuel
  omega

theorem loopFuel_past (H : List HandlerFunc) (i : Nat) (h : H.length ≤ i) :
    loopFuel H i = 1 := by
  unfold loopFuel
  rw [List.drop_eq_nil_of_le h]
  rfl

theorem loopFuel_step (H : List HandlerFunc) (i : Nat) (h : HandlerFunc)
    (hget : H[i]? = some h) : loopFuel H i = h.size + 1 + loopFuel H (i + 1) := by
  have hlt : i < H.length := by
    by_contra hge
    rw [List.getElem?_eq_none (by omega)] at hget
    cases hget
  have hh : H[i] = h := by
    rw [List.getElem?_eq_getElem hlt] at hget
    exact Option.some.inj hget
  unfold loopFuel
  rw [List.drop_eq_getElem_cons hlt, hh]
  simp only [List.map_cons, List.sum_cons]
  omega

theorem loopFuel_succ_le (H : List HandlerFunc) (i : Nat) :
    loopFuel H (i + 1) ≤ loopFuel H i := by
  cases hget : H[i]? with
  | none =>
    have hge : H.length ≤ i := by
      by_contra hlt
      rw [List.getElem?_eq_getElem (by omega)] at hget
      cases hget
    rw [loopFuel_past H i hge, loopFuel_past H (i + 1) (by omega)]
  | some h =>
    rw [loopFuel_step H i h hget]
    omega

theorem loopFuel_antitone (H : List HandlerFunc) (i j : Nat) (hij : i ≤ j) :
    loopFuel H j ≤ loopFuel H i := by
  induction j with
  | zero =>
    have : i = 0 := by omega
    rw [this]
  | succ m ih =>
    by_cases h : i = m + 1
    · rw [h]
    · exact le_trans (loopFuel_succ_le H m) (ih (by omega))

theorem calmBody_incr (H : List HandlerFunc) (hH : H.length ≤ 127) (st : St)
    (h : CalmBody H st) : CalmLoop H ⟨st.c.incr, st.log⟩ := by
  have hb := int8_bounds (st.c.index + 1)
  have hlo := h.lo
  have hhi := h.hi
  refine ⟨h.hs, hb.1, hb.2, ?_⟩
  rw [h.seen]
  by_cases h127 : st.c.index = 127
  · have hw : (st.c.incr).index = -128 := by
      simp only [Context.incr, h127]
      decide
    simp only [hw]
    rw [if_pos (by decide), h127]
    congr 1
    have : (127 : Int).toNat = 127 := by decide
    omega
  · have hw : (st.c.incr).index = st.c.index + 1 := by
      simp only [Context.incr]
      exact int8_of_range _ (by omega) (by omega)
    simp only [hw]
    rw [if_neg (by omega)]
    congr 1
    have : (st.c.index + 1).toNat = st.c.index.toNat + 1 := by omega
    rw [this]

theorem calmBody_frame (H : List HandlerFunc) (st : St) (c : Context) (h : CalmBody H st)
    (hl : c.handlers = st.c.handlers) (hi : c.index = st.c.index) : CalmBody H ⟨c, st.log⟩ := by
  refine ⟨?_, ?_, ?_, ?_⟩
  · simpa [hl] using h.hs
  · simpa [hi] using h.lo
  · simpa [hi] using h.hi
  · simpa [hi] using h.seen

theorem calmLoop_call (H : List HandlerFunc) (hH : H.length ≤ 127) (st : St)
    (h : CalmLoop H st) (h0 : 0 ≤ st.c.index) (hlt : st.c.index < int8 st.c.handlers.length) :
    st.c.index.toNat < H.length ∧
      CalmBody H ⟨st.c, st.log ++ [Event.call st.c.index.toNat]⟩ := by
  have hs : int8 (st.c.handlers.length : Int) = H.length := by
    rw [h.hs]
    exact int8_of_range _ (by omega) (by omega)
  rw [hs] at hlt
  have hi : st.c.index.toNat < H.length := by omega
  refine ⟨hi, h.hs, h0, h.hi, ?_⟩
  rw [calls_snoc_call, h.seen, if_neg (by omega)]
  show _ = List.range (min (st.c.index.toNat + 1) H.length)
  rw [Nat.min_eq_left (by omega), Nat.min_eq_left (by omega), List.range_succ]

theorem calmLoop_exit (H : List HandlerFunc) (hH : H.length ≤ 127) (st : St)
    (h : CalmLoop H st) (hge : ¬ st.c.index < int8 st.c.handlers.length) :
    CalmBody H st ∧ (H.length : Int) ≤ st.c.index := by
  have hs : int8 (st.c.handlers.length : Int) = H.length := by
    rw [h.hs]
    exact int8_of_range _ (by omega) (by omega)
  rw [hs] at hge
  have h0 : 0 ≤ st.c.index := by omega
  refine ⟨⟨h.hs, h0, h.hi, ?_⟩, by omega⟩
  rw [h.seen, if_neg (by omega), Nat.min_eq_right (by omega), Nat.min_eq_right (by omega)]

theorem calmLoop_wrapped (H : List HandlerFunc) (st : St)
    (h : CalmLoop H st) (hneg : st.c.index < 0) : calls st.log = List.range H.length := by
  rw [h.seen, if_pos hneg]

theorem loopNeed_pos (H : List HandlerFunc) (i : Int) : 1 ≤ loopNeed H i := by
  unfold loopNeed
  split
  · exact le_refl 1
  · exact loopFuel_pos H _

theorem loopNeed_incr_le (H : List HandlerFunc) (c : Context) (h0 : 0 ≤ c.index)
    (h127 : c.index ≤ 127) : loopNeed H c.incr.index ≤ loopFuel H (c.index.toNat + 1) := by
  unfold loopNeed
  split
  · exact loopFuel_pos H _
  · rename_i hneg
    by_cases hw : c.index = 127
    · exfalso
      apply hneg
      simp only [Context.incr, hw]
      decide
    · have he : c.incr.index = c.index + 1 := by
        simp only [Context.incr]
        exact int8_of_range _ (by omega) (by omega)
      rw [he]
      have : (c.index + 1).toNat = c.index.toNat + 1 := by omega
      rw [this]

/-- With enough fuel a run over a chain of at most 127 handlers that do not abort ends,
and unless a handler panicked it ends with the positions invoked in order. -/
theorem run_calm (H : List HandlerFunc) (hH : H.length ≤ 127)
    (hc : ∀ h ∈ H, h.noAbort = true) : ∀ fuel : Nat,
    (∀ st : St, CalmLoop H st → loopNeed H st.c.index ≤ fuel →
      CalmPost H st.c.index (run fuel Ctl.loop st) ∧
      ((run fuel Ctl.loop st).out = Outcome.returned →
        0 ≤ st.c.index ∧ (H.length : Int) ≤ (run fuel Ctl.loop st).st.c.index)) ∧
    (∀ (pos : Nat) (p : Prog) (st : St), p.noAbort = true → CalmBody H st →
      p.size + loopFuel H (st.c.index.toNat + 1) ≤ fuel →
      CalmPost H st.c.index (run fuel (Ctl.body pos p) st)) := by
  intro fuel
  induction fuel with
  | zero =>
    refine ⟨fun st _ hf => ?_, fun pos p st _ _ hf => ?_⟩
    · have := loopNeed_pos H st.c.index
      omega
    · have := loopFuel_pos H (st.c.index.toNat + 1)
      omega
  | succ f ih =>
    obtain ⟨ihL, ihB⟩ := ih
    refine ⟨fun st hL hf => ?_, fun pos p st hcalm hB hf => ?_⟩
    · simp only [run]
      by_cases hlt : st.c.index < int8 st.c.handlers.length
      · rw [if_pos hlt]
        by_cases hneg : st.c.index < 0
        · rw [if_pos hneg]
          exact ⟨⟨fun h => Outcome.noConfusion h, fun h => Outcome.noConfusion h,
            fun _ => calmLoop_wrapped H st hL hneg⟩, fun h => Outcome.noConfusion h⟩
        · rw [if_neg hneg]
          have h0 : 0 ≤ st.c.index := by omega
          obtain ⟨hi, hB1⟩ := calmLoop_call H hH st hL h0 hlt
          have hget : st.c.handlers[st.c.index.toNat]? = some (H[st.c.index.toNat]) := by
            rw [hL.hs]
            exact List.getElem?_eq_getElem hi
          have hmem : H[st.c.index.toNat] ∈ H := List.getElem_mem hi
          have hcm := hc _ hmem
          have hstep := loopFuel_step H st.c.index.toNat _ (List.getElem?_eq_getElem hi)
          rw [hget]
          cases hh : H[st.c.index.toNat] with
          | nil =>
            exact ⟨⟨fun h => Outcome.noConfusion h, fun h => Outcome.noConfusion h,
              fun h => by cases h⟩, fun h => Outcome.noConfusion h⟩
          | fn body =>
            rw [hh] at hcm hstep
            have hneed : loopNeed H st.c.index = loopFuel H st.c.index.toNat := by
              unfold loopNeed
              rw [if_neg hneg]
            rw [hneed, hstep] at hf
            have hsz : body.size + loopFuel H (st.c.index.toNat + 1) ≤ f := by
              simp only [HandlerFunc.size] at hf
              omega
            have h1 := ihB st.c.index.toNat body
              ⟨st.c, st.log ++ [Event.call st.c.index.toNat]⟩ hcm hB1 hsz
            simp only
            cases hout : (run f (Ctl.body st.c.index.toNat body)
                ⟨st.c, st.log ++ [Event.call st.c.index.toNat]⟩).out with
            | returned =>
              simp only
              obtain ⟨hB2, hmono⟩ := h1.ret hout
              have hmono2 : st.c.index ≤ (run f (Ctl.body st.c.index.toNat body)
                ⟨st.c, st.log ++ [Event.call st.c.index.toNat]⟩).st.c.index := hmono
              have hneed2 := loopNeed_incr_le H _ hB2.lo hB2.hi
              have hanti := loopFuel_antitone H (st.c.index.toNat + 1)
                ((run f (Ctl.body st.c.index.toNat body)
                  ⟨st.c, st.log ++ [Event.call st.c.index.toNat]⟩).st.c.index.toNat + 1)
                (by omega)
              have hfuel2 : loopFuel H (st.c.index.toNat + 1) ≤ f := by omega
              have h2 := ihL ⟨_, _⟩ (calmBody_incr H hH _ hB2)
                (le_trans hneed2 (le_trans hanti hfuel2))
              refine ⟨⟨h2.1.fuel, fun hr => ?_, h2.1.pan⟩, fun hr => ?_⟩
              · obtain ⟨hB3, _⟩ := h2.1.ret hr
                have h3 := (h2.2 hr).2
                refine ⟨hB3, ?_⟩
                have hs : int8 (st.c.handlers.length : Int) = H.length := by
                  rw [hL.hs]
                  exact int8_of_range _ (by omega) (by omega)
                rw [hs] at hlt
                omega
              · exact ⟨h0, (h2.2 hr).2⟩
            | panicked why =>
              have hnr : (run f (Ctl.body st.c.index.toNat body)
                  ⟨st.c, st.log ++ [Event.call st.c.index.toNat]⟩).out ≠ Outcome.returned := by
                rw [hout]
                exact fun h => by cases h
              exact ⟨⟨h1.fuel, fun h => absurd h hnr, fun hw => h1.pan hw⟩,
                fun h => absurd h hnr⟩
            | outOfFuel => exact absurd hout h1.fuel
      · rw [if_neg hlt]
        obtain ⟨hB, hge⟩ := calmLoop_exit H hH st hL hlt
        have hs : int8 (st.c.handlers.length : Int) = H.length := by
          rw [hL.hs]
          exact int8_of_range _ (by omega) (by omega)
        rw [hs] at hlt
        have h0 : 0 ≤ st.c.index := by omega
        exact ⟨⟨fun h => Outcome.noConfusion h, fun _ => ⟨hB, le_refl _⟩,
          fun h => Outcome.noConfusion h⟩, fun _ => ⟨h0, hge⟩⟩
    · cases p with
      | ret =>
        simp only [run]
        exact ⟨fun h => Outcome.noConfusion h, fun _ => ⟨hB, le_refl _⟩,
          fun h => Outcome.noConfusion h⟩
      | next k =>
        simp only [run]
        have hk : k.noAbort = true := hcalm
        simp only [Prog.size] at hf
        have hneed := loopNeed_incr_le H st.c hB.lo hB.hi
        have hfuel1 : loopNeed H st.c.incr.index ≤ f := by omega
        have h1 := ihL ⟨st.c.incr, st.log⟩ (calmBody_incr H hH st hB) hfuel1
        cases hout : (run f Ctl.loop ⟨st.c.incr, st.log⟩).out with
        | returned =>
          simp only
          obtain ⟨hB2, hmono⟩ := h1.1.ret hout
          obtain ⟨hnn, hge⟩ := h1.2 hout
          have hnn2 : 0 ≤ st.c.incr.index := hnn
          have hmono2 : st.c.incr.index ≤ (run f Ctl.loop ⟨st.c.incr, st.log⟩).st.c.index := hmono
          have hinc : st.c.incr.index = st.c.index + 1 := by
            by_cases hw : st.c.index = 127
            · exfalso
              have : st.c.incr.index = -128 := by
                simp only [Context.incr, hw]
                decide
              omega
            · simp only [Context.incr]
              exact int8_of_range _ (by have := hB.lo; omega) (by have := hB.hi; omega)
          have hpast := loopFuel_past H
            ((run f Ctl.loop ⟨st.c.incr, st.log⟩).st.c.index.toNat + 1) (by omega)
          have hpos := loopFuel_pos H (st.c.index.toNat + 1)
          have h2 := ihB pos k _ hk hB2 (by rw [hpast]; omega)
          refine ⟨h2.fuel, fun hr => ?_, h2.pan⟩
          obtain ⟨hB3, hm3⟩ := h2.ret hr
          exact ⟨hB3, by omega⟩
        | panicked why =>
          have hnr : (run f Ctl.loop ⟨st.c.incr, st.log⟩).out ≠ Outcome.returned := by
            rw [hout]
            exact fun h => by cases h
          exact ⟨h1.1.fuel, fun h => absurd h hnr, fun hw => h1.1.pan hw⟩
        | outOfFuel => exact absurd hout h1.1.fuel
      | abort code k => cases hcalm
      | error err meta k =>
        simp only [run]
        simp only [Prog.size] at hf
        cases herr : st.c.Error err meta with
        | none =>
          exact ⟨fun h => Outcome.noConfusion h, fun h => Outcome.noConfusion h,
            fun h => (by cases h)⟩
        | some c1 =>
          obtain ⟨e, -, rfl⟩ := (Error_some_iff _ _ _ _).mp herr
          simp only
          exact ihB pos k ⟨{ st.c with Errors := st.c.Errors ++ [{ Message := e.Error, Meta := meta }] }, st.log⟩
            hcalm (calmBody_frame H st _ hB rfl rfl)
            (show k.size + loopFuel H (st.c.index.toNat + 1) ≤ f by omega)
      | fail code err k => cases hcalm
      | set key item k =>
        simp only [run]
        simp only [Prog.size] at hf
        exact ihB pos k ⟨st.c.Set key item, st.log⟩ hcalm
          (calmBody_frame H st _ hB rfl rfl) (by show _ ≤ f; simp only [Context.Set]; omega)
      | get key k =>
        simp only [run]
        simp only [Prog.size] at hf
        cases st.c.Get key with
        | none =>
          exact ⟨fun h => Outcome.noConfusion h, fun h => Outcome.noConfusion h,
            fun h => by cases h⟩
        | some v => exact ihB pos k st hcalm hB (by omega)
      | writeHeader code k =>
        simp only [run]
        simp only [Prog.size] at hf
        have hf2 : k.size + loopFuel H (st.c.index.toNat + 1) ≤ f := by omega
        exact ihB pos k ⟨{ st.c with Writer := st.c.Writer.WriteHeader code }, st.log⟩ hcalm
          (calmBody_frame H st _ hB rfl rfl) hf2
      | test q t e =>
        simp only [run]
        simp only [Prog.size] at hf
        have hte : t.noAbort = true ∧ e.noAbort = true := by
          simpa [Prog.noAbort] using hcalm
        by_cases hp : q st.c.Writer st.c.Keys st.c.Errors = true
        · rw [if_pos hp]
          exact ihB pos t st hte.1 hB (by omega)
        · rw [if_neg hp]
          exact ihB pos e st hte.2 hB (by omega)

theorem fresh_calmLoop (w : List SinkCall) (req : Request) (params : List (String × String))
    (H : List HandlerFunc) : CalmLoop H ⟨(createContext w req params H).incr, []⟩ := by
  have hi : (createContext w req params H).incr.index = 0 := by
    show int8 (-1 + 1) = 0
    decide
  refine ⟨rfl, by rw [hi]; decide, by rw [hi]; decide, ?_⟩
  rw [hi]
  simp [calls]

/-- C2, as stated, fails for a chain of 128 handlers: `int8(128)` is -128, the loop test
fails at once and `Next` returns without having invoked any handler. -/
theorem C2_int8_counterexample :
    (List.replicate 128 plain).length = 128 ∧
    (List.replicate 128 plain).all HandlerFunc.noAbort = true ∧
    ((createContext [] req0 [] (List.replicate 128 plain)).Next 300).out = Outcome.returned ∧
    calls ((createContext [] req0 [] (List.replicate 128 plain)).Next 300).st.log = [] := by
  decide

/-! ## Error, Set, and the body helpers -/

/-- C13, as stated, fails for the nil error: `Error(nil, m)` panics in `err.Error()` and
appends nothing. -/
theorem C13_error_nil_counterexample :
    ctx0.Error none (Iface.str "note") = none := rfl

/-- C13, amended: for every context, every non-nil error `err` and every meta `m`,
`Error(err, m)` does not panic and yields the previous error list followed by the single
record with message `err.Error()` and meta `m`; every earlier record keeps its place; the
cursor, the handler chain, the keys, the response wrapper (so its status), the request and
the parameters are unchanged. -/
theorem C13_error_only_appends (c : Context) (err : Option GoError) (m : Iface)
    (h : err ≠ none) :
    ∃ e c1, err = some e ∧ c.Error err m = some c1 ∧
      c1.Errors = c.Errors ++ [{ Message := e.Error, Meta := m }] ∧
      (∀ i, i < c.Errors.length → c1.Errors[i]? = c.Errors[i]?) ∧
      c1.Errors.length = c.Errors.length + 1 ∧
      c1.index = c.index ∧
      c1.handlers = c.handlers ∧
      c1.Keys = c.Keys ∧
      c1.Writer = c.Writer ∧
      c1.Req = c.Req ∧
      c1.Params = c.Params := by
  cases err with
  | none => exact absurd rfl h
  | some e =>
    refine ⟨e, _, rfl, rfl, rfl, ?_, ?_, rfl, rfl, rfl, rfl, rfl, rfl⟩
    · intro i hi
      show (c.Errors ++ [_])[i]? = _
      exact List.getElem?_append_left hi
    · show (c.Errors ++ [_]).length = _
      simp

theorem C13_error_only_appends_witness :
    ∃ e c1, some (GoError.mk "slow") = some e ∧
      (ctx0.Abort 500).Error (some (GoError.mk "slow")) (Iface.num 3) = some c1 ∧
      c1.Errors = (ctx0.Abort 500).Errors ++ [{ Message := e.Error, Meta := Iface.num 3 }] ∧
      (∀ i, i < (ctx0.Abort 500).Errors.length →
        c1.Errors[i]? = (ctx0.Abort 500).Errors[i]?) ∧
      c1.Errors.length = (ctx0.Abort 500).Errors.length + 1 ∧
      c1.index = (ctx0.Abort 500).index ∧
      c1.handlers = (ctx0.Abort 500).handlers ∧
      c1.Keys = (ctx0.Abort 500).Keys ∧
      c1.Writer = (ctx0.Abort 500).Writer ∧
      c1.Req = (ctx0.Abort 500).Req ∧
      c1.Params = (ctx0.Abort 500).Params :=
  C13_error_only_appends (ctx0.Abort 500) (some (GoError.mk "slow")) (Iface.num 3) (by decide)

/-- C15: when `ParseBody` returns an error `e`, `EnsureBody` is `Fail(400, e)` and the
context after it has status 400, the error list extended by the record with message
`e.Error()` and meta "Operation aborted", and the cursor at `AbortIndex`. When `ParseBody`
returns nil the context is unchanged: no error appended, no status written, same cursor. -/
theorem C15_ensureBody (decode : String → Iface → Except GoError Iface)
    (validate : Context → Iface → Option GoError) (c : Context) (item : Iface) :
    (∀ e, (c.ParseBody decode validate item).err = some e →
      c.EnsureBody decode validate item = c.Fail 400 (some e) ∧
      ∃ c1, c.EnsureBody decode validate item = some c1 ∧
        c1.Writer.Status = 400 ∧
        c1.Errors
          = c.Errors ++ [{ Message := e.Error, Meta := Iface.str "Operation aborted" }] ∧
        c1.index = AbortIndex) ∧
    ((c.ParseBody decode validate item).err = none →
      c.EnsureBody decode validate item = some c) := by
  constructor
  · intro e he
    have h : c.EnsureBody decode validate item = c.Fail 400 (some e) := by
      simp only [Context.EnsureBody, he]
    rw [h]
    exact ⟨rfl, _, rfl, rfl, rfl, rfl⟩
  · intro he
    simp only [Context.EnsureBody, he]

theorem C15_ensureBody_witness :
    (∃ c1, ctx0.EnsureBody decodeText validateAll Iface.nil = some c1 ∧
      c1.Writer.Status = 400 ∧
      c1.Errors
        = ctx0.Errors ++ [{ Message := "EOF", Meta := Iface.str "Operation aborted" }] ∧
      c1.index = AbortIndex) ∧
    ctxBody.EnsureBody decodeText validateAll Iface.nil = some ctxBody :=
  ⟨((C15_ensureBody decodeText validateAll ctx0 Iface.nil).1 ⟨"EOF"⟩ (by decide)).2,
    (C15_ensureBody decodeText validateAll ctxBody Iface.nil).2 (by decide)⟩

/-- C16: when decoding the body fails with `e`, `ParseBody` returns exactly `e` and
`Validate` is not invoked; when decoding yields `v`, `ParseBody` returns exactly the result
of `Validate(c, v)`, which is invoked once, on `v`. -/
theorem C16_parseBody (decode : String → Iface → Except GoError Iface)
    (validate : Context → Iface → Option GoError) (c : Context) (item : Iface) :
    (∀ e, decode c.Req.Body item = Except.error e →
      (c.ParseBody decode validate item).err = some e ∧
      (c.ParseBody decode validate item).validated = []) ∧
    (∀ v, decode c.Req.Body item = Except.ok v →
      (c.ParseBody decode validate item).err = validate c v ∧
      (c.ParseBody decode validate item).validated = [v]) := by
  constructor
  · intro e he
    simp [Context.ParseBody, he]
  · intro v hv
    simp [Context.ParseBody, hv]

theorem C16_parseBody_witness :
    (ctx0.ParseBody decodeText validateAll Iface.nil).validated = [] ∧
    (ctxBody.ParseBody decodeText validateAll Iface.nil).validated = [Iface.str "tea"] :=
  ⟨((C16_parseBody decodeText validateAll ctx0 Iface.nil).1 ⟨"EOF"⟩ rfl).2,
    ((C16_parseBody decodeText validateAll ctxBody Iface.nil).2 (Iface.str "tea") rfl).2⟩

theorem lookup_cons_ne (m : KeyMap) (k k2 : String) (v : Iface) (h : k ≠ k2) :
    List.lookup k2 ((k, v) :: m) = List.lookup k2 m := by
  have hb : (k2 == k) = false := by
    simp only [beq_eq_false_iff_ne, ne_eq]
    exact fun h2 => h h2.symm
  simp only [List.lookup, hb]

theorem Get_congr_lookup (c1 c2 : Context) (k : String) (m1 m2 : KeyMap)
    (h1 : c1.Keys = some m1) (h2 : c2.Keys = some m2)
    (hl : List.lookup k m1 = List.lookup k m2) : c1.Get k = c2.Get k := by
  simp only [Context.Get, h1, h2, hl]

/-- C19, as stated, fails when the second value is nil: after `Set(k, v)` and `Set(k, nil)`
the call `Get(k)` panics instead of returning the nil value. -/
theorem C19_second_set_nil_counterexample :
    ((ctx0.Set "user" (Iface.str "ann")).Set "user" Iface.nil).Get "user" = none := by
  decide

/-- C19, amended: for keys `k ≠ k2`, the outcome of `Get(k2)` (value or panic) is the same
after `Set(k, v)` as before; a second `Set(k, v2)` with a non-nil `v2` makes `Get(k)` return
`v2`; `Set` leaves the cursor, the error list, the handler chain and the response wrapper
unchanged; and it allocates the key map only when it was nil, keeping the entries of a map
that exists. -/
theorem C19_set_frame (c : Context) (k k2 : String) (v v2 : Iface)
    (hk : k ≠ k2) (hv2 : v2 ≠ Iface.nil) :
    (c.Set k v).Get k2 = c.Get k2 ∧
    ((c.Set k v).Set k v2).Get k = some v2 ∧
    (c.Set k v).index = c.index ∧
    (c.Set k v).Errors = c.Errors ∧
    (c.Set k v).handlers = c.handlers ∧
    (c.Set k v).Writer = c.Writer ∧
    (c.Keys = none → (c.Set k v).Keys = some [(k, v)]) ∧
    (∀ m, c.Keys = some m → (c.Set k v).Keys = some ((k, v) :: m)) := by
  refine ⟨?_, ?_, rfl, rfl, rfl, rfl, ?_, ?_⟩
  · cases hK : c.Keys with
    | none =>
      rw [Get_nil_map c k2 hK]
      refine Get_missing _ k2 [(k, v)] (by simp [Context.Set, hK]) ?_
      rw [lookup_cons_ne [] k k2 v hk]
      rfl
    | some m =>
      exact Get_congr_lookup _ c k2 ((k, v) :: m) m (by simp [Context.Set, hK]) hK
        (lookup_cons_ne m k k2 v hk)
  · simp [Context.Set, Context.Get, List.lookup, hv2]
  · intro hK
    simp [Context.Set, hK]
  · intro m hK
    simp [Context.Set, hK]

theorem C19_set_frame_witness :
    ((ctx0.Set "user" (Iface.str "ann")).Set "role" (Iface.num 1)).Get "user"
      = (ctx0.Set "user" (Iface.str "ann")).Get "user" ∧
    (((ctx0.Set "user" (Iface.str "ann")).Set "role" (Iface.num 1)).Set "role"
      (Iface.num 2)).Get "role" = some (Iface.num 2) :=
  ⟨(C19_set_frame (ctx0.Set "user" (Iface.str "ann")) "role" "user" (Iface.num 1)
      (Iface.num 2) (by decide) (by decide)).1,
    (C19_set_frame (ctx0.Set "user" (Iface.str "ann")) "role" "user" (Iface.num 1)
      (Iface.num 2) (by decide) (by decide)).2.1⟩

/-! ## The default engine -/

/-- C20: on the engine of `Default` the resolved chain starts with the nil handler that
`Use(nil)` put into the root group: `allHandlers([plain])` is `[nil, plain]`, and the
dispatch closure of `Handle` panics on the nil function at position 0 before any handler
has been invoked. On the engine of `New` the chain is the list of route handlers. -/
theorem C20_default_chain_has_nil :
    Default.group.Handlers = [HandlerFunc.nil] ∧
    (∀ hs, Default.group.allHandlers hs = HandlerFunc.nil :: hs) ∧
    (Default.group.Handle [plain] 8 [] req0 []).out = Outcome.panicked PanicKind.nilFunc ∧
    calls (Default.group.Handle [plain] 8 [] req0 []).st.log = [] ∧
    (∀ hs, New.group.allHandlers hs = hs) := by
  refine ⟨rfl, fun _ => rfl, by decide, by decide, fun _ => rfl⟩

/-! ## Slices: what append returns and what it overwrites -/

/-- The slice returned by `append(s, xs...)` holds the elements of `s` followed by `xs`. -/
theorem goAppend_read (h : Heap) (s : Slice) (xs : List HandlerFunc) (hb : h.backs s) :
    (goAppend h s xs).1.read (goAppend h s xs).2 = h.read s ++ xs := by
  obtain ⟨hlen, hcap⟩ := hb
  unfold goAppend
  by_cases hfit : s.len + xs.length ≤ s.cap
  · rw [if_pos hfit]
    rcases hcap with h0 | ⟨harr, hal⟩
    · have hl : s.len = 0 := by omega
      have hx : xs = [] := List.eq_nil_of_length_eq_zero (by omega)
      simp [Heap.read, hl, hx]
    · simp only [Heap.read, List.getD_eq_getElem?_getD]
      rw [List.getElem?_set_self harr]
      simp only [Option.getD_some]
      have h1 : ((h[s.arr]?.getD []).take s.len).length = s.len := by
        rw [List.length_take]
        have : (h[s.arr]?.getD []).length = s.cap := by
          rw [← List.getD_eq_getElem?_getD]
          exact hal
        omega
      rw [List.append_assoc, List.take_append_eq_append_take, h1]
      simp
  · rw [if_neg hfit]
    simp only [Heap.read, List.getD_eq_getElem?_getD]
    rw [List.getElem?_append_right (le_refl _)]
    simp only [Nat.sub_self, List.getElem?_cons_zero, Option.getD_some]
    have h1 : ((h[s.arr]?.getD []).take s.len).length = s.len := by
      rw [List.length_take]
      rcases hcap with h0 | ⟨_, hal⟩
      · omega
      · have : (h[s.arr]?.getD []).length = s.cap := by
          rw [← List.getD_eq_getElem?_getD]
          exact hal
        omega
    rw [List.append_assoc, List.take_append_eq_append_take, h1]
    simp

/-- C14: a captured chain is overwritten by later registrations. On the root group of `New`
after three `Use` calls of one handler each, the `Handlers` slice has length 3 and capacity
4. The chain captured for `GET /x` with `[created]` shares that array and reads
`[plain, wrap, logMiss, created]`; once `GET /y` with `[accepted]` is registered on the
same group the chain captured for `/x` reads `[plain, wrap, logMiss, accepted]`, and a
request to `/x` ends with status 202 instead of 201; after a later `Use(forbid)` it reads
`[plain, wrap, logMiss, forbid]` and a request to `/x` ends with status 403. -/
theorem C14_captured_chain_overwritten :
    threeUses.2 = SGroup.root ⟨2, 3, 4⟩ "/" ∧
    routeX.2 = ⟨2, 4, 4⟩ ∧ routeY.2 = ⟨2, 4, 4⟩ ∧
    routeX.1.read routeX.2 = [plain, wrap, logMiss, created] ∧
    routeY.1.read routeX.2 = [plain, wrap, logMiss, accepted] ∧
    laterUse.1.read routeX.2 = [plain, wrap, logMiss, forbid] ∧
    dispatch (routeX.1.read routeX.2) = (201, [0, 1, 2, 3]) ∧
    dispatch (routeY.1.read routeX.2) = (202, [0, 1, 2, 3]) ∧
    dispatch (laterUse.1.read routeX.2) = (403, [0, 1, 2, 3]) := by
  refine ⟨rfl, rfl, rfl, rfl, rfl, rfl, ?_, ?_, ?_⟩ <;> decide

/-! ## Chain execution: where `Next` returns -/

/-- No operation changes the handler chain of the context. -/
theorem run_handlers : ∀ (fuel : Nat) (ctl : Ctl) (st : St),
    (run fuel ctl st).st.c.handlers = st.c.handlers := by
  intro fuel
  induction fuel with
  | zero =>
    intro ctl st
    simp only [run]
  | succ f ih =>
    intro ctl st
    cases ctl with
    | loop =>
      simp only [run]
      by_cases hlt : st.c.index < int8 st.c.handlers.length
      · rw [if_pos hlt]
        by_cases hneg : st.c.index < 0
        · rw [if_pos hneg]
        · rw [if_neg hneg]
          cases hget : st.c.handlers[st.c.index.toNat]? with
          | none => rfl
          | some hf =>
            cases hf with
            | nil => rfl
            | fn body =>
              have h1 := ih (Ctl.body st.c.index.toNat body)
                ⟨st.c, st.log ++ [Event.call st.c.index.toNat]⟩
              simp only
              cases hout : (run f (Ctl.body st.c.index.toNat body)
                  ⟨st.c, st.log ++ [Event.call st.c.index.toNat]⟩).out with
              | returned =>
                simp only
                rw [ih Ctl.loop _]
                exact h1
              | panicked why => exact h1
              | outOfFuel => exact h1
      · rw [if_neg hlt]
    | body pos p =>
      cases p with
      | ret => simp only [run]
      | next k =>
        simp only [run]
        have h1 := ih Ctl.loop ⟨st.c.incr, st.log⟩
        cases hout : (run f Ctl.loop ⟨st.c.incr, st.log⟩).out with
        | returned =>
          simp only
          rw [ih (Ctl.body pos k) _]
          exact h1
        | panicked why => exact h1
        | outOfFuel => exact h1
      | abort code k =>
        simp only [run]
        exact ih (Ctl.body pos k) _
      | error err meta k =>
        simp only [run]
        cases herr : st.c.Error err meta with
        | none => rfl
        | some c1 =>
          obtain ⟨e, -, rfl⟩ := (Error_some_iff _ _ _ _).mp herr
          simp only
          exact ih (Ctl.body pos k) ⟨{ st.c with Errors := st.c.Errors ++ [{ Message := e.Error, Meta := meta }] }, st.log⟩
      | fail code err k =>
        simp only [run]
        cases herr : st.c.Fail code err with
        | none => rfl
        | some c1 =>
          obtain ⟨c0, h0, rfl⟩ := (Fail_some_iff _ _ _ _).mp herr
          obtain ⟨e, -, rfl⟩ := (Error_some_iff _ _ _ _).mp h0
          simp only
          exact ih (Ctl.body pos k) ⟨Context.Abort
            { st.c with Errors := st.c.Errors ++ [{ Message := e.Error, Meta := Iface.str "Operation aborted" }] } code,
            st.log ++ [Event.abort pos]⟩
      | set key item k =>
        simp only [run]
        exact ih (Ctl.body pos k) _
      | get key k =>
        simp only [run]
        cases st.c.Get key with
        | none => rfl
        | some v => exact ih (Ctl.body pos k) _
      | writeHeader code k =>
        simp only [run]
        exact ih (Ctl.body pos k) _
      | test p t e =>
        simp only [run]
        by_cases hp : p st.c.Writer st.c.Keys st.c.Errors = true
        · rw [if_pos hp]
          exact ih (Ctl.body pos t) _
        · rw [if_neg hp]
          exact ih (Ctl.body pos e) _

/-- The loop of `Next` returns only in a state in which its test fails. -/
theorem run_loop_exit : ∀ (fuel : Nat) (st : St),
    (run fuel Ctl.loop st).out = Outcome.returned →
    ¬ (run fuel Ctl.loop st).st.c.index < int8 (run fuel Ctl.loop st).st.c.handlers.length := by
  intro fuel
  induction fuel with
  | zero =>
    intro st h
    simp only [run] at h
    cases h
  | succ f ih =>
    intro st
    simp only [run]
    by_cases hlt : st.c.index < int8 st.c.handlers.length
    · rw [if_pos hlt]
      by_cases hneg : st.c.index < 0
      · rw [if_pos hneg]
        intro h
        cases h
      · rw [if_neg hneg]
        cases hget : st.c.handlers[st.c.index.toNat]? with
        | none =>
          intro h
          cases h
        | some hf =>
          cases hf with
          | nil =>
            intro h
            cases h
          | fn body =>
            simp only
            cases hout : (run f (Ctl.body st.c.index.toNat body)
                ⟨st.c, st.log ++ [Event.call st.c.index.toNat]⟩).out with
            | returned =>
              simp only
              exact ih _
            | panicked why =>
              intro h
              rw [hout] at h
              cases h
            | outOfFuel =>
              intro h
              rw [hout] at h
              cases h
    · rw [if_neg hlt]
      intro _
      exact hlt

/-- Over a chain of at most 64 handlers the loop of `Next` returns in a state that
satisfies the invariant of the loop test. -/
theorem run_safe_loop (n : Nat) (hn : n ≤ 64) : ∀ (fuel : Nat) (st : St),
    LoopInv n st → (run fuel Ctl.loop st).out = Outcome.returned →
    LoopInv n (run fuel Ctl.loop st).st := by
  intro fuel
  induction fuel with
  | zero =>
    intro st _ h
    simp only [run] at h
    cases h
  | succ f ih =>
    intro st hL
    simp only [run]
    by_cases hlt : st.c.index < int8 st.c.handlers.length
    · rw [if_pos hlt]
      by_cases hneg : st.c.index < 0
      · rw [if_pos hneg]
        intro h
        cases h
      · rw [if_neg hneg]
        cases hget : st.c.handlers[st.c.index.toNat]? with
        | none =>
          intro h
          cases h
        | some hf =>
          cases hf with
          | nil =>
            intro h
            cases h
          | fn body =>
            have hB := loopInv_call n hn st hL (by omega) hlt
            have h1 := run_safe n hn f (Ctl.body st.c.index.toNat body) _ hB
            simp only
            cases hout : (run f (Ctl.body st.c.index.toNat body)
                ⟨st.c, st.log ++ [Event.call st.c.index.toNat]⟩).out with
            | returned =>
              simp only
              exact ih _ (bodyInv_incr n _ (h1.2 hout))
            | panicked why =>
              intro h
              rw [hout] at h
              cases h
            | outOfFuel =>
              intro h
              rw [hout] at h
              cases h
    · rw [if_neg hlt]
      intro _
      exact hL

theorem incr_index_of_lt (c : Context) (h1 : -128 ≤ c.index) (h2 : c.index < 127) :
    c.incr.index = c.index + 1 := by
  simp only [Context.incr]
  exact int8_of_range _ (by omega) (by omega)

theorem incr_index_wrap (c : Context) (h : c.index = 127) : c.incr.index = -128 := by
  simp only [Context.incr, h]
  decide

theorem incr_index_bounds (c : Context) : -128 ≤ c.incr.index ∧ c.incr.index ≤ 127 :=
  int8_bounds _

theorem incr_handlers (c : Context) : c.incr.handlers = c.handlers := rfl

theorem noAbort_of_getElem? (H : List HandlerFunc) (hc : ∀ h ∈ H, h.noAbort = true)
    (i : Nat) (body : Prog) (hget : H[i]? = some (HandlerFunc.fn body)) :
    body.noAbort = true :=
  hc _ (List.getElem?_mem hget)

/-- Over a chain of at most 127 handlers that do not abort, a loop of `Next` or a handler
body that returns has not lowered the cursor, whatever the fuel. -/
theorem run_mono (H : List HandlerFunc) (hH : H.length ≤ 127)
    (hc : ∀ h ∈ H, h.noAbort = true) : ∀ fuel : Nat,
    (∀ st : St, st.c.handlers = H → -128 ≤ st.c.index → st.c.index ≤ 127 →
      (run fuel Ctl.loop st).out = Outcome.returned →
      0 ≤ st.c.index ∧ st.c.index ≤ (run fuel Ctl.loop st).st.c.index ∧
        (H.length : Int) ≤ (run fuel Ctl.loop st).st.c.index ∧
        (run fuel Ctl.loop st).st.c.index ≤ 127) ∧
    (∀ (pos : Nat) (p : Prog) (st : St), p.noAbort = true → st.c.handlers = H →
      0 ≤ st.c.index → st.c.index ≤ 127 →
      (run fuel (Ctl.body pos p) st).out = Outcome.returned →
      st.c.index ≤ (run fuel (Ctl.body pos p) st).st.c.index ∧
        (run fuel (Ctl.body pos p) st).st.c.index ≤ 127) := by
  intro fuel
  induction fuel with
  | zero =>
    refine ⟨fun st _ _ _ h => ?_, fun pos p st _ _ _ _ h => ?_⟩
    · simp only [run] at h
      cases h
    · simp only [run] at h
      cases h
  | succ f ih =>
    obtain ⟨ihL, ihB⟩ := ih
    refine ⟨fun st hs hlo hhi => ?_, fun pos p st hp hs hlo hhi => ?_⟩
    · have hsn : int8 (st.c.handlers.length : Int) = H.length := by
        rw [hs]
        exact int8_of_range _ (by omega) (by omega)
      simp only [run]
      by_cases hlt : st.c.index < int8 st.c.handlers.length
      · rw [if_pos hlt]
        by_cases hneg : st.c.index < 0
        · rw [if_pos hneg]
          intro h
          cases h
        · rw [if_neg hneg]
          cases hget : st.c.handlers[st.c.index.toNat]? with
          | none =>
            intro h
            cases h
          | some hf =>
            cases hf with
            | nil =>
              intro h
              cases h
            | fn body =>
              have hbody : body.noAbort = true :=
                noAbort_of_getElem? H hc st.c.index.toNat body (by rw [← hs]; exact hget)
              have h1 := ihB st.c.index.toNat body
                ⟨st.c, st.log ++ [Event.call st.c.index.toNat]⟩ hbody hs
                (show (0 : Int) ≤ st.c.index by omega) hhi
              have hh1 : (run f (Ctl.body st.c.index.toNat body)
                  ⟨st.c, st.log ++ [Event.call st.c.index.toNat]⟩).st.c.handlers
                  = st.c.handlers :=
                run_handlers f (Ctl.body st.c.index.toNat body)
                  ⟨st.c, st.log ++ [Event.call st.c.index.toNat]⟩
              simp only
              generalize run f (Ctl.body st.c.index.toNat body)
                ⟨st.c, st.log ++ [Event.call st.c.index.toNat]⟩ = r1 at h1 hh1 ⊢
              cases hout : r1.out with
              | returned =>
                simp only
                obtain ⟨hm1, hhi1⟩ := h1 hout
                have hm1b : st.c.index ≤ r1.st.c.index := hm1
                have hb := incr_index_bounds r1.st.c
                intro hr
                have h2 := ihL ⟨r1.st.c.incr, r1.st.log⟩ (hh1.trans hs) hb.1 hb.2 hr
                obtain ⟨h20, h2m, h2n, h2h⟩ := h2
                have h20b : 0 ≤ r1.st.c.incr.index := h20
                have h2mb : r1.st.c.incr.index
                    ≤ (run f Ctl.loop ⟨r1.st.c.incr, r1.st.log⟩).st.c.index := h2m
                refine ⟨by omega, ?_, h2n, h2h⟩
                by_cases hw : r1.st.c.index = 127
                · have := incr_index_wrap _ hw
                  omega
                · have := incr_index_of_lt r1.st.c (by omega) (by omega)
                  omega
              | panicked why =>
                intro h
                have h2 : r1.out = Outcome.returned := h
                rw [hout] at h2
                cases h2
              | outOfFuel =>
                intro h
                have h2 : r1.out = Outcome.returned := h
                rw [hout] at h2
                cases h2
      · rw [if_neg hlt]
        intro _
        rw [hsn] at hlt
        have h0 : 0 ≤ st.c.index := by omega
        have hn : (H.length : Int) ≤ st.c.index := by omega
        exact ⟨h0, le_refl _, hn, hhi⟩
    · cases p with
      | ret =>
        simp only [run]
        intro _
        exact ⟨le_refl _, hhi⟩
      | next k =>
        simp only [run]
        have hk : k.noAbort = true := hp
        have hb := incr_index_bounds st.c
        have h1 := ihL ⟨st.c.incr, st.log⟩ hs hb.1 hb.2
        have hh1 : (run f Ctl.loop ⟨st.c.incr, st.log⟩).st.c.handlers = st.c.handlers :=
          run_handlers f Ctl.loop ⟨st.c.incr, st.log⟩
        cases hout : (run f Ctl.loop ⟨st.c.incr, st.log⟩).out with
        | returned =>
          simp only
          obtain ⟨h10, h1m, _, h1h⟩ := h1 hout
          have h10b : 0 ≤ st.c.incr.index := h10
          have h1mb : st.c.incr.index ≤ (run f Ctl.loop ⟨st.c.incr, st.log⟩).st.c.index := h1m
          have hinc : st.c.incr.index = st.c.index + 1 := by
            by_cases hw : st.c.index = 127
            · have := incr_index_wrap _ hw
              omega
            · exact incr_index_of_lt _ (by omega) (by omega)
          intro hr
          have h2 := ihB pos k _ hk (hh1.trans hs) (by omega) h1h hr
          exact ⟨by omega, h2.2⟩
        | panicked why =>
          intro h
          rw [hout] at h
          cases h
        | outOfFuel =>
          intro h
          rw [hout] at h
          cases h
      | abort code k => cases hp
      | error err meta k =>
        simp only [run]
        cases herr : st.c.Error err meta with
        | none => exact fun h => Outcome.noConfusion h
        | some c1 =>
          obtain ⟨e, -, rfl⟩ := (Error_some_iff _ _ _ _).mp herr
          simp only
          exact ihB pos k ⟨{ st.c with Errors := st.c.Errors ++ [{ Message := e.Error, Meta := meta }] }, st.log⟩
            hp hs hlo hhi
      | fail code err k => cases hp
      | set key item k =>
        simp only [run]
        exact ihB pos k ⟨st.c.Set key item, st.log⟩ hp hs hlo hhi
      | get key k =>
        simp only [run]
        cases st.c.Get key with
        | none =>
          intro h
          cases h
        | some v => exact ihB pos k st hp hs hlo hhi
      | writeHeader code k =>
        simp only [run]
        exact ihB pos k ⟨{ st.c with Writer := st.c.Writer.WriteHeader code }, st.log⟩ hp hs
          hlo hhi
      | test q t e =>
        simp only [run]
        have hte : t.noAbort = true ∧ e.noAbort = true := by
          simpa [Prog.noAbort] using hp
        by_cases hq : q st.c.Writer st.c.Keys st.c.Errors = true
        · rw [if_pos hq]
          exact ihB pos t st hte.1 hs hlo hhi
        · rw [if_neg hq]
          exact ihB pos e st hte.2 hs hlo hhi

/-- A body that neither aborts nor calls `Next` returns with the cursor it started with. -/
theorem body_still : ∀ (fuel pos : Nat) (p : Prog) (st : St),
    p.noAbort = true → p.nexts = 0 →
    (run fuel (Ctl.body pos p) st).out = Outcome.returned →
    (run fuel (Ctl.body pos p) st).st.c.index = st.c.index := by
  intro fuel
  induction fuel with
  | zero =>
    intro pos p st _ _ h
    simp only [run] at h
    cases h
  | succ f ih =>
    intro pos p st hp hn
    cases p with
    | ret =>
      intro _
      simp only [run]
    | next k => simp [Prog.nexts] at hn
    | abort code k => cases hp
    | error err meta k =>
      simp only [run]
      cases herr : st.c.Error err meta with
      | none => exact fun h => Outcome.noConfusion h
      | some c1 =>
        obtain ⟨e, -, rfl⟩ := (Error_some_iff _ _ _ _).mp herr
        simp only
        exact ih pos k ⟨{ st.c with Errors := st.c.Errors ++ [{ Message := e.Error, Meta := meta }] }, st.log⟩
          hp hn
    | fail code err k => cases hp
    | set key item k =>
      simp only [run]
      exact ih pos k ⟨st.c.Set key item, st.log⟩ hp hn
    | get key k =>
      simp only [run]
      cases st.c.Get key with
      | none =>
        intro h
        cases h
      | some v => exact ih pos k st hp hn
    | writeHeader code k =>
      simp only [run]
      exact ih pos k ⟨{ st.c with Writer := st.c.Writer.WriteHeader code }, st.log⟩ hp hn
    | test q t e =>
      simp only [run]
      have hte : t.noAbort = true ∧ e.noAbort = true := by
        simpa [Prog.noAbort] using hp
      have hne : t.nexts = 0 ∧ e.nexts = 0 := by
        simp only [Prog.nexts] at hn
        omega
      by_cases hq : q st.c.Writer st.c.Keys st.c.Errors = true
      · rw [if_pos hq]
        exact ih pos t st hte.1 hne.1
      · rw [if_neg hq]
        exact ih pos e st hte.2 hne.2

/-- Over a chain of at most 127 handlers that neither abort nor call `Next`, the loop of
`Next` started at cursor `i ≥ 0` returns with the cursor at `max i N`. -/
theorem loop_plain (H : List HandlerFunc) (hH : H.length ≤ 127)
    (hc : ∀ h ∈ H, h.noAbort = true) (hn : ∀ h ∈ H, h.nexts = 0) :
    ∀ (fuel : Nat) (st : St), st.c.handlers = H → 0 ≤ st.c.index → st.c.index ≤ 127 →
    (run fuel Ctl.loop st).out = Outcome.returned →
    (run fuel Ctl.loop st).st.c.index = max st.c.index (H.length : Int) := by
  intro fuel
  induction fuel with
  | zero =>
    intro st _ _ _ h
    simp only [run] at h
    cases h
  | succ f ih =>
    intro st hs hlo hhi
    have hsn : int8 (st.c.handlers.length : Int) = H.length := by
      rw [hs]
      exact int8_of_range _ (by omega) (by omega)
    simp only [run]
    by_cases hlt : st.c.index < int8 st.c.handlers.length
    · rw [if_pos hlt, if_neg (by omega)]
      cases hget : st.c.handlers[st.c.index.toNat]? with
      | none =>
        intro h
        cases h
      | some hf =>
        cases hf with
        | nil =>
          intro h
          cases h
        | fn body =>
          have hmem : HandlerFunc.fn body ∈ H := by
            rw [← hs]
            exact List.getElem?_mem hget
          have hbody : body.noAbort = true := hc _ hmem
          have hbn : body.nexts = 0 := hn _ hmem
          have h1 := body_still f st.c.index.toNat body
            ⟨st.c, st.log ++ [Event.call st.c.index.toNat]⟩ hbody hbn
          have hh1 : (run f (Ctl.body st.c.index.toNat body)
              ⟨st.c, st.log ++ [Event.call st.c.index.toNat]⟩).st.c.handlers
              = st.c.handlers :=
            run_handlers f (Ctl.body st.c.index.toNat body)
              ⟨st.c, st.log ++ [Event.call st.c.index.toNat]⟩
          simp only
          generalize run f (Ctl.body st.c.index.toNat body)
            ⟨st.c, st.log ++ [Event.call st.c.index.toNat]⟩ = r1 at h1 hh1 ⊢
          cases hout : r1.out with
          | returned =>
            simp only
            have hi1 : r1.st.c.index = st.c.index := h1 hout
            rw [hsn] at hlt
            have hinc : r1.st.c.incr.index = st.c.index + 1 := by
              rw [incr_index_of_lt r1.st.c (by omega) (by omega), hi1]
            intro hr
            have h2 := ih ⟨r1.st.c.incr, r1.st.log⟩ (hh1.trans hs)
              (show (0 : Int) ≤ r1.st.c.incr.index by omega)
              (show r1.st.c.incr.index ≤ 127 by omega) hr
            rw [h2]
            show max r1.st.c.incr.index (H.length : Int) = _
            rw [hinc]
            omega
          | panicked why =>
            intro h
            have h2 : r1.out = Outcome.returned := h
            rw [hout] at h2
            cases h2
          | outOfFuel =>
            intro h
            have h2 : r1.out = Outcome.returned := h
            rw [hout] at h2
            cases h2
    · rw [if_neg hlt]
      intro _
      rw [hsn] at hlt
      show st.c.index = _
      omega

/-- C11, as stated, fails in both terminal states. With the chain `[forbid]` the handler
calls `Abort`, the loop increments the sentinel and `Next` returns with the cursor at 64,
not at `AbortIndex = 63`. With the chain `[wrap, plain]`, in which nobody aborts, the
re-entrant `Next` and the outer loop each increment once more and `Next` returns with the
cursor at 3, not at the chain length 2. -/
theorem C11_terminal_counterexample :
    ((createContext [] req0 [] [forbid]).Next 8).out = Outcome.returned ∧
    ((createContext [] req0 [] [forbid]).Next 8).st.c.index = 64 ∧
    AbortIndex = 63 ∧
    ((createContext [] req0 [] [wrap, plain]).Next 8).out = Outcome.returned ∧
    ((createContext [] req0 [] [wrap, plain]).Next 8).st.c.index = 3 ∧
    [wrap, plain].length = 2 := by
  decide

/-- C11, amended: when the `Next` call on a fresh context over a chain of `N` handlers
returns, then: if `N ≤ 127` the cursor is at least `N`, and it equals `N` when no handler
aborts or calls `Next` re-entrantly; if `N ≤ 64` and some handler called `Abort` or `Fail`,
the cursor is at least `AbortIndex + 1`, which is 64. -/
theorem C11_terminal_cursor (H : List HandlerFunc)
    (w : List SinkCall) (req : Request) (params : List (String × String)) (fuel : Nat)
    (hret : ((createContext w req params H).Next fuel).out = Outcome.returned) :
    (H.length ≤ 127 →
      (H.length : Int) ≤ ((createContext w req params H).Next fuel).st.c.index) ∧
    (H.length ≤ 127 → (∀ h ∈ H, h.noAbort = true) → (∀ h ∈ H, h.nexts = 0) →
      ((createContext w req params H).Next fuel).st.c.index = H.length) ∧
    (H.length ≤ 64 → aborted ((createContext w req params H).Next fuel).st.log →
      AbortIndex + 1 ≤ ((createContext w req params H).Next fuel).st.c.index) := by
  have hexit := run_loop_exit fuel ⟨(createContext w req params H).incr, []⟩ hret
  have hhs : ((createContext w req params H).Next fuel).st.c.handlers = H :=
    run_handlers fuel Ctl.loop ⟨(createContext w req params H).incr, []⟩
  have hexit2 : ¬ ((createContext w req params H).Next fuel).st.c.index
      < int8 ((createContext w req params H).Next fuel).st.c.handlers.length := hexit
  rw [hhs] at hexit2
  have hi0 : (createContext w req params H).incr.index = 0 := by
    show int8 (-1 + 1) = 0
    decide
  refine ⟨fun hH => ?_, fun hH hc hn => ?_, fun hH hab => ?_⟩
  · rw [int8_of_range _ (by omega) (by omega)] at hexit2
    omega
  · have h := loop_plain H hH hc hn fuel ⟨(createContext w req params H).incr, []⟩ rfl
      (by rw [hi0]) (by rw [hi0]; decide) hret
    have h2 : ((createContext w req params H).Next fuel).st.c.index
        = max (createContext w req params H).incr.index (H.length : Int) := h
    rw [h2, hi0]
    omega
  · have hL := run_safe_loop H.length hH fuel _ (fresh_loopInv w req params H) hret
    have hL2 : LoopInv H.length ((createContext w req params H).Next fuel).st := hL
    rw [int8_of_range _ (by omega) (by omega)] at hexit2
    have h0 : 0 ≤ ((createContext w req params H).Next fuel).st.c.index := by omega
    have := hL2.ab h0 hab
    rw [AbortIndex_eq]
    omega

theorem C11_terminal_cursor_witness :
    AbortIndex + 1 ≤ ((createContext [] req0 [] [plain, forbid]).Next 8).st.c.index :=
  (C11_terminal_cursor [plain, forbid] [] req0 [] 8 (by decide)).2.2 (by decide)
    ⟨1, by decide⟩

/-- C12, as stated, fails: in the chain of 64 wrap-style handlers nobody aborts, the
re-entrant `Next` calls and the loops above them raise the cursor to 127, the next
increment wraps it to -128, below its starting value -1, and `Next` panics on
`handlers[-128]`. -/
theorem C12_wrap_counterexample :
    wraps64.length = 64 ∧
    wraps64.all HandlerFunc.noAbort = true ∧
    ((createContext [] req0 [] wraps64).Next 200).out
      = Outcome.panicked PanicKind.indexOutOfRange ∧
    ((createContext [] req0 [] wraps64).Next 200).st.c.index = -128 ∧
    ((createContext [] req0 [] wraps64).Next 200).st.c.index
      < (createContext [] req0 [] wraps64).index := by
  decide

/-- C12, amended: for every chain of at most 127 handlers in which no handler calls `Abort`
or `Fail`: a step `c.index++` taken at a cursor below 127 raises the cursor by one, and the
step taken at 127 wraps it to -128; every `Next` call that returns, the first one or a
re-entrant one, has raised the cursor; and every handler body that returns has not lowered
it. -/
theorem C12_cursor_steps (H : List HandlerFunc) (hH : H.length ≤ 127)
    (hc : ∀ h ∈ H, h.noAbort = true) :
    (∀ c : Context, -128 ≤ c.index → c.index < 127 → c.incr.index = c.index + 1) ∧
    (∀ c : Context, c.index = 127 → c.incr.index = -128) ∧
    (∀ (fuel : Nat) (st : St), st.c.handlers = H → -1 ≤ st.c.index → st.c.index ≤ 127 →
      (run fuel Ctl.loop ⟨st.c.incr, st.log⟩).out = Outcome.returned →
      st.c.index < (run fuel Ctl.loop ⟨st.c.incr, st.log⟩).st.c.index) ∧
    (∀ (fuel pos : Nat) (p : Prog) (st : St), p.noAbort = true → st.c.handlers = H →
      0 ≤ st.c.index → st.c.index ≤ 127 →
      (run fuel (Ctl.body pos p) st).out = Outcome.returned →
      st.c.index ≤ (run fuel (Ctl.body pos p) st).st.c.index) := by
  refine ⟨incr_index_of_lt, incr_index_wrap, ?_, ?_⟩
  · intro fuel st hs hlo hhi hret
    have hb := incr_index_bounds st.c
    have h := (run_mono H hH hc fuel).1 ⟨st.c.incr, st.log⟩ hs hb.1 hb.2 hret
    obtain ⟨h0, hm, _, _⟩ := h
    have h0b : 0 ≤ st.c.incr.index := h0
    have hmb : st.c.incr.index ≤ (run fuel Ctl.loop ⟨st.c.incr, st.log⟩).st.c.index := hm
    by_cases hw : st.c.index = 127
    · have := incr_index_wrap _ hw
      omega
    · have := incr_index_of_lt st.c (by omega) (by omega)
      omega
  · intro fuel pos p st hp hs hlo hhi hret
    exact ((run_mono H hH hc fuel).2 pos p st hp hs hlo hhi hret).1

theorem C12_cursor_steps_witness :
    (createContext [] req0 [] [wrap, plain]).index
      < (run 8 Ctl.loop ⟨(createContext [] req0 [] [wrap, plain]).incr, []⟩).st.c.index :=
  (C12_cursor_steps [wrap, plain] (by decide) (by decide)).2.2.1 8
    ⟨createContext [] req0 [] [wrap, plain], []⟩ rfl (by decide) (by decide) (by decide)

/-! ## Chain execution: termination -/

theorem stuck_lt (i : Nat) (h : i < 64) : stuck[i]? = some plain := by
  unfold stuck
  rw [List.getElem?_append_left (by rw [List.length_replicate]; exact h),
    List.getElem?_replicate, if_pos h]

theorem stuck_last : stuck[64]? = some forbid := rfl

theorem stuck_int8 : int8 (stuck.length : Int) = 65 := by decide

/-- On the chain `stuck` the loop of `Next` never ends: from every cursor between 0 and 64
the model runs out of fuel, whatever the fuel. -/
theorem stuck_loop : ∀ (fuel : Nat) (st : St), st.c.handlers = stuck →
    0 ≤ st.c.index → st.c.index ≤ 64 →
    (run fuel Ctl.loop st).out = Outcome.outOfFuel := by
  intro fuel
  induction fuel with
  | zero =>
    intro st _ _ _
    simp only [run]
  | succ f ih =>
    intro st hs hlo hhi
    simp only [run]
    have hlt : st.c.index < int8 st.c.handlers.length := by
      rw [hs, stuck_int8]
      omega
    rw [if_pos hlt, if_neg (by omega)]
    by_cases h64 : st.c.index = 64
    · have hget : st.c.handlers[st.c.index.toNat]? = some forbid := by
        rw [hs, h64]
        exact stuck_last
      rw [hget]
      simp only [forbid]
      cases f with
      | zero => simp only [run]
      | succ f1 =>
        cases f1 with
        | zero => simp only [run]
        | succ f2 =>
          simp only [run]
          exact ih ⟨(st.c.Abort 403).incr, st.log ++ [Event.call st.c.index.toNat] ++
            [Event.abort st.c.index.toNat]⟩ hs
            (by show (0 : Int) ≤ int8 (AbortIndex + 1); decide)
            (by show int8 (AbortIndex + 1) ≤ 64; decide)
    · have hget : st.c.handlers[st.c.index.toNat]? = some plain := by
        rw [hs]
        exact stuck_lt _ (by omega)
      rw [hget]
      simp only [plain]
      cases f with
      | zero => simp only [run]
      | succ f1 =>
        simp only [run]
        have hinc : st.c.incr.index = st.c.index + 1 :=
          incr_index_of_lt st.c (by omega) (by omega)
        exact ih ⟨st.c.incr, st.log ++ [Event.call st.c.index.toNat]⟩ hs
          (by show (0 : Int) ≤ st.c.incr.index; omega)
          (by show st.c.incr.index ≤ 64; omega)

/-- C17, as stated, fails: on the chain of 65 handlers whose last handler aborts, the
cursor is reset from 64 to 63 each time `handlers[64]` runs, the loop increments it to 64
and invokes `handlers[64]` again; the `Next` call never returns. -/
theorem C17_never_returns_counterexample :
    stuck.length = 65 ∧
    (∀ fuel : Nat, ((createContext [] req0 [] stuck).Next fuel).out = Outcome.outOfFuel) ∧
    calls ((createContext [] req0 [] stuck).Next 70).st.log
      = List.range 65 ++ [64, 64, 64, 64] := by
  refine ⟨by decide, fun fuel => ?_, by decide⟩
  exact stuck_loop fuel ⟨(createContext [] req0 [] stuck).incr, []⟩ rfl
    (by show (0 : Int) ≤ int8 (-1 + 1); decide) (by show int8 (-1 + 1) ≤ 64; decide)

theorem loopFuel_after_abort (H : List HandlerFunc) (hH : H.length ≤ 64) :
    loopFuel H ((63 : Int).toNat + 1) = 1 :=
  loopFuel_past H _ (by
    have : (63 : Int).toNat = 63 := by decide
    omega)

/-- With enough fuel a run over a chain of at most 64 handlers ends, whatever the handlers
do: `Abort` moves the cursor to 63, from where no handler is left to run. -/
theorem run_ends (H : List HandlerFunc) (hH : H.length ≤ 64) : ∀ fuel : Nat,
    (∀ st : St, st.c.handlers = H → -128 ≤ st.c.index → st.c.index ≤ 127 →
      loopNeed H st.c.index ≤ fuel →
      (run fuel Ctl.loop st).out ≠ Outcome.outOfFuel ∧
      ((run fuel Ctl.loop st).out = Outcome.returned →
        (H.length : Int) ≤ (run fuel Ctl.loop st).st.c.index ∧
        (run fuel Ctl.loop st).st.c.index ≤ 127)) ∧
    (∀ (pos : Nat) (p : Prog) (st : St), st.c.handlers = H →
      0 ≤ st.c.index → st.c.index ≤ 127 →
      p.size + loopFuel H (st.c.index.toNat + 1) ≤ fuel →
      (run fuel (Ctl.body pos p) st).out ≠ Outcome.outOfFuel ∧
      ((run fuel (Ctl.body pos p) st).out = Outcome.returned →
        0 ≤ (run fuel (Ctl.body pos p) st).st.c.index ∧
        (run fuel (Ctl.body pos p) st).st.c.index ≤ 127 ∧
        loopFuel H ((run fuel (Ctl.body pos p) st).st.c.index.toNat + 1)
          ≤ loopFuel H (st.c.index.toNat + 1))) := by
  intro fuel
  induction fuel with
  | zero =>
    refine ⟨fun st _ _ _ hf => ?_, fun pos p st _ _ _ hf => ?_⟩
    · have := loopNeed_pos H st.c.index
      omega
    · have := loopFuel_pos H (st.c.index.toNat + 1)
      omega
  | succ f ih =>
    obtain ⟨ihL, ihB⟩ := ih
    refine ⟨fun st hs hlo hhi hf => ?_, fun pos p st hs hlo hhi hf => ?_⟩
    · have hsn : int8 (st.c.handlers.length : Int) = H.length := by
        rw [hs]
        exact int8_of_range _ (by omega) (by omega)
      simp only [run]
      by_cases hlt : st.c.index < int8 st.c.handlers.length
      · rw [if_pos hlt]
        by_cases hneg : st.c.index < 0
        · rw [if_pos hneg]
          exact ⟨fun h => Outcome.noConfusion h, fun h => Outcome.noConfusion h⟩
        · rw [if_neg hneg]
          cases hget : st.c.handlers[st.c.index.toNat]? with
          | none => exact ⟨fun h => Outcome.noConfusion h, fun h => Outcome.noConfusion h⟩
          | some hf1 =>
            cases hf1 with
            | nil => exact ⟨fun h => Outcome.noConfusion h, fun h => Outcome.noConfusion h⟩
            | fn body =>
              have hstep := loopFuel_step H st.c.index.toNat (HandlerFunc.fn body)
                (by rw [← hs]; exact hget)
              have hneed : loopNeed H st.c.index = loopFuel H st.c.index.toNat := by
                unfold loopNeed
                rw [if_neg hneg]
              rw [hneed, hstep] at hf
              simp only [HandlerFunc.size] at hf
              have hsz : body.size + loopFuel H (st.c.index.toNat + 1) ≤ f := by omega
              have h1 := ihB st.c.index.toNat body
                ⟨st.c, st.log ++ [Event.call st.c.index.toNat]⟩ hs
                (show (0 : Int) ≤ st.c.index by omega) hhi hsz
              have hh1 : (run f (Ctl.body st.c.index.toNat body)
                  ⟨st.c, st.log ++ [Event.call st.c.index.toNat]⟩).st.c.handlers
                  = st.c.handlers :=
                run_handlers f (Ctl.body st.c.index.toNat body)
                  ⟨st.c, st.log ++ [Event.call st.c.index.toNat]⟩
              simp only
              generalize run f (Ctl.body st.c.index.toNat body)
                ⟨st.c, st.log ++ [Event.call st.c.index.toNat]⟩ = r1 at h1 hh1 ⊢
              cases hout : r1.out with
              | returned =>
                simp only
                obtain ⟨h10, h11, h1f⟩ := h1.2 hout
                have h1fb : loopFuel H (r1.st.c.index.toNat + 1)
                    ≤ loopFuel H (st.c.index.toNat + 1) := h1f
                have hneed2 := loopNeed_incr_le H r1.st.c h10 h11
                have hb := incr_index_bounds r1.st.c
                exact ihL ⟨r1.st.c.incr, r1.st.log⟩ (hh1.trans hs) hb.1 hb.2
                  (show loopNeed H r1.st.c.incr.index ≤ f by omega)
              | panicked why =>
                refine ⟨h1.1, fun h => ?_⟩
                have h2 : r1.out = Outcome.returned := h
                rw [hout] at h2
                cases h2
              | outOfFuel => exact absurd hout h1.1
      · rw [if_neg hlt]
        rw [hsn] at hlt
        have hn : (H.length : Int) ≤ st.c.index := by omega
        exact ⟨fun h => Outcome.noConfusion h, fun _ => ⟨hn, hhi⟩⟩
    · cases p with
      | ret =>
        simp only [run]
        exact ⟨fun h => Outcome.noConfusion h, fun _ => ⟨hlo, hhi, le_refl _⟩⟩
      | next k =>
        simp only [run]
        simp only [Prog.size] at hf
        have hneed := loopNeed_incr_le H st.c hlo hhi
        have hb := incr_index_bounds st.c
        have h1 := ihL ⟨st.c.incr, st.log⟩ hs hb.1 hb.2
          (show loopNeed H st.c.incr.index ≤ f by omega)
        have hh1 : (run f Ctl.loop ⟨st.c.incr, st.log⟩).st.c.handlers = st.c.handlers :=
          run_handlers f Ctl.loop ⟨st.c.incr, st.log⟩
        generalize run f Ctl.loop ⟨st.c.incr, st.log⟩ = r1 at h1 hh1 ⊢
        cases hout : r1.out with
        | returned =>
          simp only
          obtain ⟨h1n, h1h⟩ := h1.2 hout
          have hpast := loopFuel_past H (r1.st.c.index.toNat + 1) (by omega)
          have hpos := loopFuel_pos H (st.c.index.toNat + 1)
          have h2 := ihB pos k r1.st (hh1.trans hs) (by omega) h1h (by rw [hpast]; omega)
          refine ⟨h2.1, fun hr => ?_⟩
          obtain ⟨h20, h21, h2f⟩ := h2.2 hr
          exact ⟨h20, h21, by omega⟩
        | panicked why =>
          refine ⟨h1.1, fun h => ?_⟩
          have h2 : r1.out = Outcome.returned := h
          rw [hout] at h2
          cases h2
        | outOfFuel => exact absurd hout h1.1
      | abort code k =>
        simp only [run]
        simp only [Prog.size] at hf
        have hab := loopFuel_after_abort H hH
        have hpos := loopFuel_pos H (st.c.index.toNat + 1)
        have h1 := ihB pos k ⟨st.c.Abort code, st.log ++ [Event.abort pos]⟩ hs
          (by show (0 : Int) ≤ AbortIndex; decide) (by show AbortIndex ≤ 127; decide)
          (by show k.size + loopFuel H (AbortIndex.toNat + 1) ≤ f
              rw [AbortIndex_eq, hab]; omega)
        refine ⟨h1.1, fun hr => ?_⟩
        obtain ⟨h10, h11, h1f⟩ := h1.2 hr
        refine ⟨h10, h11, le_trans h1f ?_⟩
        show loopFuel H (AbortIndex.toNat + 1) ≤ _
        rw [AbortIndex_eq, hab]
        exact hpos
      | error err meta k =>
        simp only [run]
        simp only [Prog.size] at hf
        cases herr : st.c.Error err meta with
        | none => exact ⟨fun h => Outcome.noConfusion h, fun h => Outcome.noConfusion h⟩
        | some c1 =>
          obtain ⟨e, -, rfl⟩ := (Error_some_iff _ _ _ _).mp herr
          simp only
          exact ihB pos k ⟨{ st.c with Errors := st.c.Errors ++ [{ Message := e.Error, Meta := meta }] }, st.log⟩
            hs hlo hhi (show k.size + loopFuel H (st.c.index.toNat + 1) ≤ f by omega)
      | fail code err k =>
        simp only [run]
        simp only [Prog.size] at hf
        cases herr : st.c.Fail code err with
        | none => exact ⟨fun h => Outcome.noConfusion h, fun h => Outcome.noConfusion h⟩
        | some c1 =>
        obtain ⟨c0, h0, rfl⟩ := (Fail_some_iff _ _ _ _).mp herr
        obtain ⟨e, -, rfl⟩ := (Error_some_iff _ _ _ _).mp h0
        simp only
        have hab := loopFuel_after_abort H hH
        have hpos := loopFuel_pos H (st.c.index.toNat + 1)
        have h1 := ihB pos k ⟨Context.Abort
            { st.c with Errors := st.c.Errors ++ [{ Message := e.Error, Meta := Iface.str "Operation aborted" }] } code,
            st.log ++ [Event.abort pos]⟩ hs
          (by show (0 : Int) ≤ AbortIndex; decide) (by show AbortIndex ≤ 127; decide)
          (by show k.size + loopFuel H (AbortIndex.toNat + 1) ≤ f
              rw [AbortIndex_eq, hab]; omega)
        refine ⟨h1.1, fun hr => ?_⟩
        obtain ⟨h10, h11, h1f⟩ := h1.2 hr
        refine ⟨h10, h11, le_trans h1f ?_⟩
        show loopFuel H (AbortIndex.toNat + 1) ≤ _
        rw [AbortIndex_eq, hab]
        exact hpos
      | set key item k =>
        simp only [run]
        simp only [Prog.size] at hf
        exact ihB pos k ⟨st.c.Set key item, st.log⟩ hs hlo hhi
          (show k.size + loopFuel H (st.c.index.toNat + 1) ≤ f by omega)
      | get key k =>
        simp only [run]
        simp only [Prog.size] at hf
        cases st.c.Get key with
        | none => exact ⟨fun h => Outcome.noConfusion h, fun h => Outcome.noConfusion h⟩
        | some v => exact ihB pos k st hs hlo hhi (by omega)
      | writeHeader code k =>
        simp only [run]
        simp only [Prog.size] at hf
        exact ihB pos k ⟨{ st.c with Writer := st.c.Writer.WriteHeader code }, st.log⟩ hs hlo
          hhi (show k.size + loopFuel H (st.c.index.toNat + 1) ≤ f by omega)
      | test q t e =>
        simp only [run]
        simp only [Prog.size] at hf
        by_cases hq : q st.c.Writer st.c.Keys st.c.Errors = true
        · rw [if_pos hq]
          exact ihB pos t st hs hlo hhi (by omega)
        · rw [if_neg hq]
          exact ihB pos e st hs hlo hhi (by omega)

theorem length_le_of_nodup_bound (l : List Nat) (n : Nat) (hd : l.Nodup)
    (hb : ∀ j ∈ l, j < n) : l.length ≤ n := by
  have hsub : l ⊆ List.range n := fun j hj => List.mem_range.mpr (hb j hj)
  have := (List.subperm_of_subset hd hsub).length_le
  simpa using this

/-! ## Chain execution: the index into the chain -/

theorem nextsFrom_past (H : List HandlerFunc) (i : Nat) (h : H.length ≤ i) :
    nextsFrom H i = 0 := by
  unfold nextsFrom
  rw [List.drop_eq_nil_of_le h]
  rfl

theorem nextsFrom_step (H : List HandlerFunc) (i : Nat) (h : HandlerFunc)
    (hget : H[i]? = some h) : nextsFrom H i = h.nexts + nextsFrom H (i + 1) := by
  have hlt : i < H.length := by
    by_contra hge
    rw [List.getElem?_eq_none (by omega)] at hget
    cases hget
  have hh : H[i] = h := by
    rw [List.getElem?_eq_getElem hlt] at hget
    exact Option.some.inj hget
  unfold nextsFrom
  rw [List.drop_eq_getElem_cons hlt, hh]
  simp only [List.map_cons, List.sum_cons]

theorem nextsFrom_succ_le (H : List HandlerFunc) (i : Nat) :
    nextsFrom H (i + 1) ≤ nextsFrom H i := by
  cases hget : H[i]? with
  | none =>
    have hge : H.length ≤ i := by
      by_contra hlt
      rw [List.getElem?_eq_getElem (by omega)] at hget
      cases hget
    rw [nextsFrom_past H i hge, nextsFrom_past H (i + 1) (by omega)]
  | some h =>
    rw [nextsFrom_step H i h hget]
    omega

theorem nextsFrom_antitone (H : List HandlerFunc) (i j : Nat) (hij : i ≤ j) :
    nextsFrom H j ≤ nextsFrom H i := by
  induction j with
  | zero =>
    have : i = 0 := by omega
    rw [this]
  | succ m ih =>
    by_cases h : i = m + 1
    · rw [h]
    · exact le_trans (nextsFrom_succ_le H m) (ih (by omega))

/-- Over a chain of at most 64 handlers the cursor stays below 128, and `handlers[c.index]`
is never evaluated out of range, as long as 64 plus the `Next` calls still possible stays
within 127. -/
theorem run_inrange (H : List HandlerFunc) (hH : H.length ≤ 64) : ∀ fuel : Nat,
    (∀ st : St, st.c.handlers = H → 0 ≤ st.c.index →
      st.c.index + (nextsFrom H st.c.index.toNat : Int) ≤ 127 →
      64 + (nextsFrom H st.c.index.toNat : Int) ≤ 127 →
      (run fuel Ctl.loop st).out ≠ Outcome.panicked PanicKind.indexOutOfRange ∧
      ((run fuel Ctl.loop st).out = Outcome.returned →
        (H.length : Int) ≤ (run fuel Ctl.loop st).st.c.index ∧
        (st.c.index ≤ (run fuel Ctl.loop st).st.c.index ∨
          64 ≤ (run fuel Ctl.loop st).st.c.index) ∧
        ((run fuel Ctl.loop st).st.c.index ≤ st.c.index + (nextsFrom H st.c.index.toNat : Int) ∨
          (run fuel Ctl.loop st).st.c.index ≤ 64 + (nextsFrom H st.c.index.toNat : Int)))) ∧
    (∀ (pos : Nat) (p : Prog) (st : St), st.c.handlers = H → 0 ≤ st.c.index →
      st.c.index + (p.nexts : Int) + (nextsFrom H (st.c.index.toNat + 1) : Int) ≤ 127 →
      63 + (p.nexts : Int) + (nextsFrom H (st.c.index.toNat + 1) : Int) ≤ 127 →
      (run fuel (Ctl.body pos p) st).out ≠ Outcome.panicked PanicKind.indexOutOfRange ∧
      ((run fuel (Ctl.body pos p) st).out = Outcome.returned →
        (st.c.index ≤ (run fuel (Ctl.body pos p) st).st.c.index ∨
          63 ≤ (run fuel (Ctl.body pos p) st).st.c.index) ∧
        ((run fuel (Ctl.body pos p) st).st.c.index
            ≤ st.c.index + (p.nexts : Int) + (nextsFrom H (st.c.index.toNat + 1) : Int) ∨
          (run fuel (Ctl.body pos p) st).st.c.index
            ≤ 63 + (p.nexts : Int) + (nextsFrom H (st.c.index.toNat + 1) : Int)))) := by
  intro fuel
  induction fuel with
  | zero =>
    refine ⟨fun st _ _ _ _ => ?_, fun pos p st _ _ _ _ => ?_⟩
    · simp only [run]
      exact ⟨fun h => Outcome.noConfusion h, fun h => Outcome.noConfusion h⟩
    · simp only [run]
      exact ⟨fun h => Outcome.noConfusion h, fun h => Outcome.noConfusion h⟩
  | succ f ih =>
    obtain ⟨ihL, ihB⟩ := ih
    refine ⟨fun st hs hlo hp1 hp2 => ?_, fun pos p st hs hlo hp1 hp2 => ?_⟩
    · have hsn : int8 (st.c.handlers.length : Int) = H.length := by
        rw [hs]
        exact int8_of_range _ (by omega) (by omega)
      simp only [run]
      by_cases hlt : st.c.index < int8 st.c.handlers.length
      · rw [if_pos hlt, if_neg (by omega)]
        rw [hsn] at hlt
        have hi : st.c.index.toNat < H.length := by omega
        have hget : st.c.handlers[st.c.index.toNat]? = some (H[st.c.index.toNat]) := by
          rw [hs]
          exact List.getElem?_eq_getElem hi
        have hstep := nextsFrom_step H st.c.index.toNat _ (List.getElem?_eq_getElem hi)
        rw [hget]
        cases hh : H[st.c.index.toNat] with
        | nil =>
          exact ⟨fun h => (by cases h), fun h => Outcome.noConfusion h⟩
        | fn body =>
          rw [hh] at hstep
          simp only [HandlerFunc.nexts] at hstep
          have h1 := ihB st.c.index.toNat body
            ⟨st.c, st.log ++ [Event.call st.c.index.toNat]⟩ hs hlo
            (show st.c.index + (body.nexts : Int)
              + (nextsFrom H (st.c.index.toNat + 1) : Int) ≤ 127 by omega)
            (show 63 + (body.nexts : Int)
              + (nextsFrom H (st.c.index.toNat + 1) : Int) ≤ 127 by omega)
          have hh1 : (run f (Ctl.body st.c.index.toNat body)
              ⟨st.c, st.log ++ [Event.call st.c.index.toNat]⟩).st.c.handlers
              = st.c.handlers :=
            run_handlers f (Ctl.body st.c.index.toNat body)
              ⟨st.c, st.log ++ [Event.call st.c.index.toNat]⟩
          simp only
          generalize run f (Ctl.body st.c.index.toNat body)
            ⟨st.c, st.log ++ [Event.call st.c.index.toNat]⟩ = r1 at h1 hh1 ⊢
          cases hout : r1.out with
          | returned =>
            simp only
            obtain ⟨hl1, hu1⟩ := h1.2 hout
            have hl1b : st.c.index ≤ r1.st.c.index ∨ 63 ≤ r1.st.c.index := hl1
            have hu1b : r1.st.c.index ≤ st.c.index + (body.nexts : Int)
                  + (nextsFrom H (st.c.index.toNat + 1) : Int) ∨
                r1.st.c.index ≤ 63 + (body.nexts : Int)
                  + (nextsFrom H (st.c.index.toNat + 1) : Int) := hu1
            have hinc : r1.st.c.incr.index = r1.st.c.index + 1 :=
              incr_index_of_lt r1.st.c (by omega) (by omega)
            have hanti := nextsFrom_antitone H (st.c.index.toNat + 1)
              (r1.st.c.index.toNat + 1) (by omega)
            have ht : r1.st.c.incr.index.toNat = r1.st.c.index.toNat + 1 := by omega
            have hpast : 64 ≤ r1.st.c.incr.index →
                nextsFrom H (r1.st.c.index.toNat + 1) = 0 := fun h64 =>
              nextsFrom_past H _ (by omega)
            have h2 := ihL ⟨r1.st.c.incr, r1.st.log⟩ (hh1.trans hs)
              (show (0 : Int) ≤ r1.st.c.incr.index by omega)
              (show r1.st.c.incr.index + (nextsFrom H r1.st.c.incr.index.toNat : Int) ≤ 127 by
                rw [ht]
                by_cases h64 : 64 ≤ r1.st.c.incr.index
                · rw [hpast h64]
                  omega
                · omega)
              (show 64 + (nextsFrom H r1.st.c.incr.index.toNat : Int) ≤ 127 by
                rw [ht]
                omega)
            refine ⟨h2.1, fun hr => ?_⟩
            obtain ⟨h2n, h2l, h2u⟩ := h2.2 hr
            have h2lb : r1.st.c.incr.index
                  ≤ (run f Ctl.loop ⟨r1.st.c.incr, r1.st.log⟩).st.c.index ∨
                64 ≤ (run f Ctl.loop ⟨r1.st.c.incr, r1.st.log⟩).st.c.index := h2l
            have h2ub : (run f Ctl.loop ⟨r1.st.c.incr, r1.st.log⟩).st.c.index
                  ≤ r1.st.c.incr.index + (nextsFrom H r1.st.c.incr.index.toNat : Int) ∨
                (run f Ctl.loop ⟨r1.st.c.incr, r1.st.log⟩).st.c.index
                  ≤ 64 + (nextsFrom H r1.st.c.incr.index.toNat : Int) := h2u
            rw [ht] at h2ub
            refine ⟨h2n, by omega, Or.inr ?_⟩
            by_cases h64 : 64 ≤ r1.st.c.incr.index
            · have := hpast h64
              omega
            · omega
          | panicked why =>
            refine ⟨h1.1, fun h => ?_⟩
            have h2 : r1.out = Outcome.returned := h
            rw [hout] at h2
            cases h2
          | outOfFuel =>
            refine ⟨h1.1, fun h => ?_⟩
            have h2 : r1.out = Outcome.returned := h
            rw [hout] at h2
            cases h2
      · rw [if_neg hlt]
        rw [hsn] at hlt
        have hn : (H.length : Int) ≤ st.c.index := by omega
        exact ⟨fun h => Outcome.noConfusion h,
          fun _ => ⟨hn, Or.inl (le_refl _), Or.inl (by
            show st.c.index ≤ st.c.index + (nextsFrom H st.c.index.toNat : Int)
            omega)⟩⟩
    · cases p with
      | ret =>
        simp only [run]
        exact ⟨fun h => Outcome.noConfusion h,
          fun _ => ⟨Or.inl (le_refl _), Or.inl (by
            show st.c.index ≤ st.c.index + ((Prog.ret).nexts : Int)
              + (nextsFrom H (st.c.index.toNat + 1) : Int)
            omega)⟩⟩
      | next k =>
        simp only [run]
        simp only [Prog.nexts, Nat.cast_add, Nat.cast_one] at hp1 hp2 ⊢
        have hinc : st.c.incr.index = st.c.index + 1 :=
          incr_index_of_lt st.c (by omega) (by omega)
        have ht : st.c.incr.index.toNat = st.c.index.toNat + 1 := by omega
        have h1 := ihL ⟨st.c.incr, st.log⟩ hs
          (show (0 : Int) ≤ st.c.incr.index by omega)
          (show st.c.incr.index + (nextsFrom H st.c.incr.index.toNat : Int) ≤ 127 by
            rw [ht]; omega)
          (show 64 + (nextsFrom H st.c.incr.index.toNat : Int) ≤ 127 by rw [ht]; omega)
        have hh1 : (run f Ctl.loop ⟨st.c.incr, st.log⟩).st.c.handlers = st.c.handlers :=
          run_handlers f Ctl.loop ⟨st.c.incr, st.log⟩
        generalize run f Ctl.loop ⟨st.c.incr, st.log⟩ = r1 at h1 hh1 ⊢
        cases hout : r1.out with
        | returned =>
          simp only
          obtain ⟨h1n, h1l, h1u⟩ := h1.2 hout
          have h1lb : st.c.incr.index ≤ r1.st.c.index ∨ 64 ≤ r1.st.c.index := h1l
          have h1ub : r1.st.c.index
                ≤ st.c.incr.index + (nextsFrom H st.c.incr.index.toNat : Int) ∨
              r1.st.c.index ≤ 64 + (nextsFrom H st.c.incr.index.toNat : Int) := h1u
          rw [ht] at h1ub
          have hpast := nextsFrom_past H (r1.st.c.index.toNat + 1) (by omega)
          have h2 := ihB pos k r1.st (hh1.trans hs) (by omega)
            (by rw [hpast]; omega) (by rw [hpast]; omega)
          refine ⟨h2.1, fun hr => ?_⟩
          obtain ⟨h2l, h2u⟩ := h2.2 hr
          rw [hpast] at h2u
          constructor
          · omega
          · omega
        | panicked why =>
          refine ⟨h1.1, fun h => ?_⟩
          have h2 : r1.out = Outcome.returned := h
          rw [hout] at h2
          cases h2
        | outOfFuel =>
          refine ⟨h1.1, fun h => ?_⟩
          have h2 : r1.out = Outcome.returned := h
          rw [hout] at h2
          cases h2
      | abort code k =>
        simp only [run]
        simp only [Prog.nexts] at hp1 hp2 ⊢
        obtain ⟨st1, hst1⟩ : ∃ s : St, s = ⟨st.c.Abort code, st.log ++ [Event.abort pos]⟩ :=
          ⟨_, rfl⟩
        rw [← hst1]
        have hidx : st1.c.index = 63 := by
          rw [hst1]
          exact AbortIndex_eq
        have hhs : st1.c.handlers = H := by
          rw [hst1]
          exact hs
        have hpast := nextsFrom_past H (st1.c.index.toNat + 1) (by omega)
        have h1 := ihB pos k st1 hhs (by omega) (by rw [hpast]; omega) (by rw [hpast]; omega)
        refine ⟨h1.1, fun hr => ?_⟩
        obtain ⟨h1l, h1u⟩ := h1.2 hr
        rw [hpast] at h1u
        constructor
        · omega
        · omega
      | error err meta k =>
        simp only [run]
        simp only [Prog.nexts] at hp1 hp2 ⊢
        cases herr : st.c.Error err meta with
        | none => exact ⟨fun h => (by cases h), fun h => Outcome.noConfusion h⟩
        | some c1 =>
          obtain ⟨e, -, rfl⟩ := (Error_some_iff _ _ _ _).mp herr
          simp only
          exact ihB pos k ⟨{ st.c with Errors := st.c.Errors ++ [{ Message := e.Error, Meta := meta }] }, st.log⟩
            hs hlo hp1 hp2
      | fail code err k =>
        simp only [run]
        simp only [Prog.nexts] at hp1 hp2 ⊢
        cases herr : st.c.Fail code err with
        | none => exact ⟨fun h => (by cases h), fun h => Outcome.noConfusion h⟩
        | some c1 =>
        obtain ⟨c0, h0, rfl⟩ := (Fail_some_iff _ _ _ _).mp herr
        obtain ⟨e, -, rfl⟩ := (Error_some_iff _ _ _ _).mp h0
        simp only
        obtain ⟨st1, hst1⟩ : ∃ s : St, s = ⟨Context.Abort
            { st.c with Errors := st.c.Errors ++ [{ Message := e.Error, Meta := Iface.str "Operation aborted" }] } code,
            st.log ++ [Event.abort pos]⟩ := ⟨_, rfl⟩
        rw [← hst1]
        have hidx : st1.c.index = 63 := by
          rw [hst1]
          exact AbortIndex_eq
        have hhs : st1.c.handlers = H := by
          rw [hst1]
          exact hs
        have hpast := nextsFrom_past H (st1.c.index.toNat + 1) (by omega)
        have h1 := ihB pos k st1 hhs (by omega) (by rw [hpast]; omega) (by rw [hpast]; omega)
        refine ⟨h1.1, fun hr => ?_⟩
        obtain ⟨h1l, h1u⟩ := h1.2 hr
        rw [hpast] at h1u
        constructor
        · omega
        · omega
      | set key item k =>
        simp only [run]
        simp only [Prog.nexts] at hp1 hp2 ⊢
        exact ihB pos k ⟨st.c.Set key item, st.log⟩ hs hlo hp1 hp2
      | get key k =>
        simp only [run]
        simp only [Prog.nexts] at hp1 hp2 ⊢
        cases st.c.Get key with
        | none => exact ⟨fun h => (by cases h), fun h => Outcome.noConfusion h⟩
        | some v => exact ihB pos k st hs hlo hp1 hp2
      | writeHeader code k =>
        simp only [run]
        simp only [Prog.nexts] at hp1 hp2 ⊢
        exact ihB pos k ⟨{ st.c with Writer := st.c.Writer.WriteHeader code }, st.log⟩ hs hlo
          hp1 hp2
      | test q t e =>
        simp only [run]
        simp only [Prog.nexts, Nat.cast_max] at hp1 hp2 ⊢
        by_cases hq : q st.c.Writer st.c.Keys st.c.Errors = true
        · rw [if_pos hq]
          have h1 := ihB pos t st hs hlo (by omega) (by omega)
          refine ⟨h1.1, fun hr => ?_⟩
          obtain ⟨h1l, h1u⟩ := h1.2 hr
          exact ⟨h1l, by omega⟩
        · rw [if_neg hq]
          have h1 := ihB pos e st hs hlo (by omega) (by omega)
          refine ⟨h1.1, fun hr => ?_⟩
          obtain ⟨h1l, h1u⟩ := h1.2 hr
          exact ⟨h1l, by omega⟩

/-- C18, as stated, fails: in the chain of 64 wrap-style handlers every handler calls
`Next` once; after all 64 handlers have been invoked the returning loops raise the cursor
to 127, the next increment wraps it to -128, the loop test `-128 < 64` holds and
`c.handlers[c.index]` is evaluated with the index -128, which panics. -/
theorem C18_negative_index_counterexample :
    wraps64.length = 64 ∧
    (wraps64.map HandlerFunc.nexts).sum = 64 ∧
    ((createContext [] req0 [] wraps64).Next 200).out
      = Outcome.panicked PanicKind.indexOutOfRange ∧
    ((createContext [] req0 [] wraps64).Next 200).st.c.index = -128 ∧
    calls ((createContext [] req0 [] wraps64).Next 200).st.log = List.range 64 := by
  decide

/-- C18, amended: for every chain of at most 64 handlers whose bodies can make at most 63
calls of `Next` in total, and every extent of the run started by `Next` on a fresh context,
in which handlers may call `Next` re-entrantly, `Abort` and `Fail`, no evaluation of
`c.handlers[c.index]` is out of range: the run never panics on the index. -/
theorem C18_index_in_range (H : List HandlerFunc) (hH : H.length ≤ 64)
    (hn : (H.map HandlerFunc.nexts).sum ≤ 63)
    (w : List SinkCall) (req : Request) (params : List (String × String)) (fuel : Nat) :
    ((createContext w req params H).Next fuel).out
      ≠ Outcome.panicked PanicKind.indexOutOfRange := by
  have hi : (createContext w req params H).incr.index = 0 := by
    show int8 (-1 + 1) = 0
    decide
  have hn0 : nextsFrom H 0 ≤ 63 := hn
  have ht : (createContext w req params H).incr.index.toNat = 0 := by
    rw [hi]
    rfl
  exact ((run_inrange H hH fuel).1 ⟨(createContext w req params H).incr, []⟩ rfl
    (by rw [hi])
    (show (createContext w req params H).incr.index
        + (nextsFrom H (createContext w req params H).incr.index.toNat : Int) ≤ 127 by
      rw [ht, hi]
      omega)
    (show 64 + (nextsFrom H (createContext w req params H).incr.index.toNat : Int) ≤ 127 by
      rw [ht]
      omega)).1

theorem C18_index_in_range_witness :
    ((createContext [] req0 [] [wrapAbort, wrap, forbid, plain]).Next 20).out
      ≠ Outcome.panicked PanicKind.indexOutOfRange :=
  C18_index_in_range [wrapAbort, wrap, forbid, plain] (by decide) (by decide) [] req0 [] 20

/-! ## Chain execution: every handler once, in order -/

/-- In a chain whose handlers cannot panic by themselves, the only panic of a run is the
one on the index. -/
theorem run_panicFree : ∀ (fuel : Nat) (ctl : Ctl) (st : St),
    (∀ h ∈ st.c.handlers, h.panicFree = true) →
    (∀ pos p, ctl = Ctl.body pos p → p.panicFree = true) →
    ∀ why, (run fuel ctl st).out = Outcome.panicked why → why = PanicKind.indexOutOfRange := by
  intro fuel
  induction fuel with
  | zero =>
    intro ctl st _ _ why h
    simp only [run] at h
    cases h
  | succ f ih =>
    intro ctl st hH hp why
    cases ctl with
    | loop =>
      simp only [run]
      by_cases hlt : st.c.index < int8 st.c.handlers.length
      · rw [if_pos hlt]
        by_cases hneg : st.c.index < 0
        · rw [if_pos hneg]
          intro h
          cases h
          rfl
        · rw [if_neg hneg]
          cases hget : st.c.handlers[st.c.index.toNat]? with
          | none =>
            intro h
            cases h
            rfl
          | some hf =>
            have hpf := hH hf (List.getElem?_mem hget)
            cases hf with
            | nil => cases hpf
            | fn body =>
              have h1 := ih (Ctl.body st.c.index.toNat body)
                ⟨st.c, st.log ++ [Event.call st.c.index.toNat]⟩ hH
                (fun pos p hctl => by cases hctl; exact hpf)
              have hh1 : (run f (Ctl.body st.c.index.toNat body)
                  ⟨st.c, st.log ++ [Event.call st.c.index.toNat]⟩).st.c.handlers
                  = st.c.handlers :=
                run_handlers f (Ctl.body st.c.index.toNat body)
                  ⟨st.c, st.log ++ [Event.call st.c.index.toNat]⟩
              simp only
              generalize run f (Ctl.body st.c.index.toNat body)
                ⟨st.c, st.log ++ [Event.call st.c.index.toNat]⟩ = r1 at h1 hh1 ⊢
              cases hout : r1.out with
              | returned =>
                simp only
                exact ih Ctl.loop ⟨r1.st.c.incr, r1.st.log⟩
                  (fun h hmem => hH h (by
                    have : r1.st.c.incr.handlers = st.c.handlers := hh1
                    rw [← this]
                    exact hmem))
                  (fun pos p hctl => by cases hctl) why
              | panicked why2 =>
                intro h
                have h2 : r1.out = Outcome.panicked why := h
                exact h1 why h2
              | outOfFuel =>
                intro h
                have h2 : r1.out = Outcome.panicked why := h
                exact h1 why h2
      · rw [if_neg hlt]
        intro h
        cases h
    | body pos p =>
      have hpp : p.panicFree = true := hp pos p rfl
      cases p with
      | ret =>
        simp only [run]
        intro h
        cases h
      | next k =>
        simp only [run]
        have h1 := ih Ctl.loop ⟨st.c.incr, st.log⟩ hH (fun pos p hctl => by cases hctl)
        have hh1 : (run f Ctl.loop ⟨st.c.incr, st.log⟩).st.c.handlers = st.c.handlers :=
          run_handlers f Ctl.loop ⟨st.c.incr, st.log⟩
        generalize run f Ctl.loop ⟨st.c.incr, st.log⟩ = r1 at h1 hh1 ⊢
        cases hout : r1.out with
        | returned =>
          simp only
          exact ih (Ctl.body pos k) r1.st
            (fun h hmem => hH h (by rw [← hh1]; exact hmem))
            (fun pos2 p2 hctl => by cases hctl; exact hpp) why
        | panicked why2 =>
          intro h
          have h2 : r1.out = Outcome.panicked why := h
          exact h1 why h2
        | outOfFuel =>
          intro h
          have h2 : r1.out = Outcome.panicked why := h
          exact h1 why h2
      | abort code k =>
        simp only [run]
        exact ih (Ctl.body pos k) ⟨st.c.Abort code, st.log ++ [Event.abort pos]⟩ hH
          (fun pos2 p2 hctl => by cases hctl; exact hpp) why
      | error err meta k =>
        simp only [run]
        have hk : err.isSome = true ∧ k.panicFree = true := by
          simpa [Prog.panicFree] using hpp
        cases err with
        | none => simp at hk
        | some e =>
          exact ih (Ctl.body pos k)
            ⟨{ st.c with Errors := st.c.Errors ++ [{ Message := e.Error, Meta := meta }] },
              st.log⟩ hH (fun pos2 p2 hctl => by cases hctl; exact hk.2) why
      | fail code err k =>
        simp only [run]
        have hk : err.isSome = true ∧ k.panicFree = true := by
          simpa [Prog.panicFree] using hpp
        cases err with
        | none => simp at hk
        | some e =>
          exact ih (Ctl.body pos k)
            ⟨Context.Abort { st.c with Errors := st.c.Errors ++
                [{ Message := e.Error, Meta := Iface.str "Operation aborted" }] } code,
              st.log ++ [Event.abort pos]⟩ hH
            (fun pos2 p2 hctl => by cases hctl; exact hk.2) why
      | set key item k =>
        simp only [run]
        exact ih (Ctl.body pos k) ⟨st.c.Set key item, st.log⟩ hH
          (fun pos2 p2 hctl => by cases hctl; exact hpp) why
      | get key k => cases hpp
      | writeHeader code k =>
        simp only [run]
        exact ih (Ctl.body pos k)
          ⟨{ st.c with Writer := st.c.Writer.WriteHeader code }, st.log⟩ hH
          (fun pos2 p2 hctl => by cases hctl; exact hpp) why
      | test q t e =>
        simp only [run]
        have hte : t.panicFree = true ∧ e.panicFree = true := by
          simpa [Prog.panicFree] using hpp
        by_cases hq : q st.c.Writer st.c.Keys st.c.Errors = true
        · rw [if_pos hq]
          exact ih (Ctl.body pos t) st hH (fun pos2 p2 hctl => by cases hctl; exact hte.1) why
        · rw [if_neg hq]
          exact ih (Ctl.body pos e) st hH (fun pos2 p2 hctl => by cases hctl; exact hte.2) why

/-- C2, amended: for every chain of `N ≤ 127` handlers in which no handler aborts, a single
`Next` call on a fresh context ends (with fuel `chainFuel H` or more the model never runs
out). Whenever it ends without a panic of a handler, that is by returning or, when
re-entrant `Next` calls pushed the cursor past 127, by the panic on the negative cursor, it
has invoked `handlers[0]`, ..., `handlers[N-1]` each exactly once and in that order. And it
does end that way, with every handler invoked once and in order, when no handler of the
chain can panic by itself: none is nil, none calls `Get`, none passes the nil error. -/
theorem C2_all_once_in_order (H : List HandlerFunc) (hH : H.length ≤ 127)
    (hc : ∀ h ∈ H, h.noAbort = true)
    (w : List SinkCall) (req : Request) (params : List (String × String))
    (fuel : Nat) (hf : chainFuel H ≤ fuel) :
    ((createContext w req params H).Next fuel).out ≠ Outcome.outOfFuel ∧
    ((((createContext w req params H).Next fuel).out = Outcome.returned ∨
        ((createContext w req params H).Next fuel).out
          = Outcome.panicked PanicKind.indexOutOfRange) →
      calls ((createContext w req params H).Next fuel).st.log = List.range H.length) ∧
    ((∀ h ∈ H, h.panicFree = true) →
      (((createContext w req params H).Next fuel).out = Outcome.returned ∨
        ((createContext w req params H).Next fuel).out
          = Outcome.panicked PanicKind.indexOutOfRange) ∧
      calls ((createContext w req params H).Next fuel).st.log = List.range H.length) := by
  have hi : (createContext w req params H).incr.index = 0 := by
    show int8 (-1 + 1) = 0
    decide
  have hneed : loopNeed H (createContext w req params H).incr.index ≤ fuel := by
    rw [hi]
    exact hf
  have h := (run_calm H hH hc fuel).1 ⟨(createContext w req params H).incr, []⟩
    (fresh_calmLoop w req params H) hneed
  have hgood : (((createContext w req params H).Next fuel).out = Outcome.returned ∨
        ((createContext w req params H).Next fuel).out
          = Outcome.panicked PanicKind.indexOutOfRange) →
      calls ((createContext w req params H).Next fuel).st.log = List.range H.length := by
    rintro (hout | hout)
    · obtain ⟨hB, _⟩ := h.1.ret hout
      have hge := (h.2 hout).2
      have hB2 : calls ((createContext w req params H).Next fuel).st.log
          = List.range (min (((createContext w req params H).Next fuel).st.c.index.toNat + 1)
              H.length) := hB.seen
      have hge2 : (H.length : Int) ≤ ((createContext w req params H).Next fuel).st.c.index :=
        hge
      rw [hB2, Nat.min_eq_right (by omega)]
    · exact h.1.pan hout
  refine ⟨h.1.fuel, hgood, fun hp => ?_⟩
  have hends : ((createContext w req params H).Next fuel).out = Outcome.returned ∨
      ((createContext w req params H).Next fuel).out
        = Outcome.panicked PanicKind.indexOutOfRange := by
    cases hout : ((createContext w req params H).Next fuel).out with
    | returned => exact Or.inl rfl
    | panicked why =>
      have := run_panicFree fuel Ctl.loop ⟨(createContext w req params H).incr, []⟩ hp
        (fun pos p hctl => by cases hctl) why hout
      rw [this]
      exact Or.inr rfl
    | outOfFuel => exact absurd hout h.1.fuel
  exact ⟨hends, hgood hends⟩

theorem C2_all_once_in_order_witness :
    calls ((createContext [] req0 []
        [wrap, logMiss, .fn (.set "user" (.num 7) (.next .ret))]).Next 12).st.log
      = [0, 1, 2] :=
  ((C2_all_once_in_order [wrap, logMiss, .fn (.set "user" (.num 7) (.next .ret))] (by decide)
    (by decide) [] req0 [] 12 (by decide)).2.2 (by decide)).2

/-! ## Chain execution: the nesting of re-entrant calls -/

/-- Over a chain of `N ≤ 64` handlers, the nesting of re-entrant `Next` calls reached from
the loop test at cursor `i` is at most `N - i`, and from inside a handler body at most
`max 1 (N - i)`; a body that returns leaves the cursor at or above its start or at 63. -/
theorem run_nesting (H : List HandlerFunc) (hH : H.length ≤ 64) : ∀ fuel : Nat,
    (∀ st : St, st.c.handlers = H → -128 ≤ st.c.index → st.c.index ≤ 127 →
      (st.c.index < 0 → nesting fuel Ctl.loop st = 0) ∧
      (0 ≤ st.c.index → nesting fuel Ctl.loop st ≤ H.length - st.c.index.toNat) ∧
      ((run fuel Ctl.loop st).out = Outcome.returned →
        0 ≤ st.c.index ∧ (H.length : Int) ≤ (run fuel Ctl.loop st).st.c.index ∧
        (st.c.index ≤ (run fuel Ctl.loop st).st.c.index ∨
          64 ≤ (run fuel Ctl.loop st).st.c.index) ∧
        (run fuel Ctl.loop st).st.c.index ≤ 127)) ∧
    (∀ (pos : Nat) (p : Prog) (st : St), st.c.handlers = H →
      0 ≤ st.c.index → st.c.index ≤ 127 →
      nesting fuel (Ctl.body pos p) st ≤ max 1 (H.length - st.c.index.toNat) ∧
      ((run fuel (Ctl.body pos p) st).out = Outcome.returned →
        (st.c.index ≤ (run fuel (Ctl.body pos p) st).st.c.index ∨
          63 ≤ (run fuel (Ctl.body pos p) st).st.c.index) ∧
        0 ≤ (run fuel (Ctl.body pos p) st).st.c.index ∧
        (run fuel (Ctl.body pos p) st).st.c.index ≤ 127)) := by
  intro fuel
  induction fuel with
  | zero =>
    refine ⟨fun st _ _ _ => ?_, fun pos p st _ _ _ => ?_⟩
    · have hn : nesting 0 Ctl.loop st = 0 := by simp only [nesting]
      have hr : (run 0 Ctl.loop st).out = Outcome.outOfFuel := by simp only [run]
      rw [hn, hr]
      exact ⟨fun _ => rfl, fun _ => Nat.zero_le _, fun h => Outcome.noConfusion h⟩
    · have hn : nesting 0 (Ctl.body pos p) st = 0 := by simp only [nesting]
      have hr : (run 0 (Ctl.body pos p) st).out = Outcome.outOfFuel := by simp only [run]
      rw [hn, hr]
      exact ⟨Nat.zero_le _, fun h => Outcome.noConfusion h⟩
  | succ f ih =>
    obtain ⟨ihL, ihB⟩ := ih
    refine ⟨fun st hs hlo hhi => ?_, fun pos p st hs hlo hhi => ?_⟩
    · have hsn : int8 (st.c.handlers.length : Int) = H.length := by
        rw [hs]
        exact int8_of_range _ (by omega) (by omega)
      simp only [nesting, run]
      by_cases hlt : st.c.index < int8 st.c.handlers.length
      · rw [if_pos hlt, if_pos hlt]
        by_cases hneg : st.c.index < 0
        · rw [if_pos hneg, if_pos hneg]
          exact ⟨fun _ => rfl, fun _ => Nat.zero_le _, fun h => Outcome.noConfusion h⟩
        · rw [if_neg hneg, if_neg hneg]
          rw [hsn] at hlt
          cases hget : st.c.handlers[st.c.index.toNat]? with
          | none =>
            exact ⟨fun h => absurd h hneg, fun _ => Nat.zero_le _,
              fun h => Outcome.noConfusion h⟩
          | some hf =>
            cases hf with
            | nil =>
              exact ⟨fun h => absurd h hneg, fun _ => Nat.zero_le _,
                fun h => Outcome.noConfusion h⟩
            | fn body =>
              have h1 := ihB st.c.index.toNat body
                ⟨st.c, st.log ++ [Event.call st.c.index.toNat]⟩ hs
                (show (0 : Int) ≤ st.c.index by omega) hhi
              have hh1 : (run f (Ctl.body st.c.index.toNat body)
                  ⟨st.c, st.log ++ [Event.call st.c.index.toNat]⟩).st.c.handlers
                  = st.c.handlers :=
                run_handlers f (Ctl.body st.c.index.toNat body)
                  ⟨st.c, st.log ++ [Event.call st.c.index.toNat]⟩
              have hn1 : nesting f (Ctl.body st.c.index.toNat body)
                  ⟨st.c, st.log ++ [Event.call st.c.index.toNat]⟩
                  ≤ max 1 (H.length - st.c.index.toNat) := h1.1
              have h1r := h1.2
              simp only
              generalize nesting f (Ctl.body st.c.index.toNat body)
                ⟨st.c, st.log ++ [Event.call st.c.index.toNat]⟩ = d1 at hn1 ⊢
              generalize run f (Ctl.body st.c.index.toNat body)
                ⟨st.c, st.log ++ [Event.call st.c.index.toNat]⟩ = r1 at h1r hh1 ⊢
              cases hout : r1.out with
              | returned =>
                simp only
                obtain ⟨hfl, h10, h11⟩ := h1r hout
                have hflb : st.c.index ≤ r1.st.c.index ∨ 63 ≤ r1.st.c.index := hfl
                have hb := incr_index_bounds r1.st.c
                have h2 := ihL ⟨r1.st.c.incr, r1.st.log⟩ (hh1.trans hs) hb.1 hb.2
                obtain ⟨h2neg, h2pos, h2ret⟩ := h2
                have h2negb : r1.st.c.incr.index < 0 →
                    nesting f Ctl.loop ⟨r1.st.c.incr, r1.st.log⟩ = 0 := h2neg
                have h2posb : 0 ≤ r1.st.c.incr.index →
                    nesting f Ctl.loop ⟨r1.st.c.incr, r1.st.log⟩
                      ≤ H.length - r1.st.c.incr.index.toNat := h2pos
                have hd2 : nesting f Ctl.loop ⟨r1.st.c.incr, r1.st.log⟩
                    ≤ H.length - st.c.index.toNat := by
                  by_cases hw : r1.st.c.index = 127
                  · have hwi := incr_index_wrap _ hw
                    rw [h2negb (by omega)]
                    exact Nat.zero_le _
                  · have hinc := incr_index_of_lt r1.st.c (by omega) (by omega)
                    have := h2posb (by omega)
                    omega
                refine ⟨fun h => absurd h hneg, fun _ => ?_, fun hr => ?_⟩
                · exact Nat.max_le.mpr ⟨by omega, hd2⟩
                · obtain ⟨h20, h2n, h2f, h2h⟩ := h2ret hr
                  have h20b : 0 ≤ r1.st.c.incr.index := h20
                  have h2fb : r1.st.c.incr.index
                        ≤ (run f Ctl.loop ⟨r1.st.c.incr, r1.st.log⟩).st.c.index ∨
                      64 ≤ (run f Ctl.loop ⟨r1.st.c.incr, r1.st.log⟩).st.c.index := h2f
                  have hinc : r1.st.c.incr.index = r1.st.c.index + 1 := by
                    by_cases hw : r1.st.c.index = 127
                    · have := incr_index_wrap _ hw
                      omega
                    · exact incr_index_of_lt r1.st.c (by omega) (by omega)
                  exact ⟨by omega, h2n, by omega, h2h⟩
              | panicked why =>
                refine ⟨fun h => absurd h hneg, fun _ => ?_, fun h => ?_⟩
                · exact Nat.max_le.mpr ⟨by omega, Nat.zero_le _⟩
                · have h2 : r1.out = Outcome.returned := h
                  rw [hout] at h2
                  cases h2
              | outOfFuel =>
                refine ⟨fun h => absurd h hneg, fun _ => ?_, fun h => ?_⟩
                · exact Nat.max_le.mpr ⟨by omega, Nat.zero_le _⟩
                · have h2 : r1.out = Outcome.returned := h
                  rw [hout] at h2
                  cases h2
      · rw [if_neg hlt, if_neg hlt]
        rw [hsn] at hlt
        have h0 : 0 ≤ st.c.index := by omega
        have hn : (H.length : Int) ≤ st.c.index := by omega
        exact ⟨fun _ => rfl, fun _ => Nat.zero_le _,
          fun _ => ⟨h0, hn, Or.inl (le_refl _), hhi⟩⟩
    · cases p with
      | ret =>
        simp only [nesting, run]
        exact ⟨Nat.zero_le _, fun _ => ⟨Or.inl (le_refl _), hlo, hhi⟩⟩
      | next k =>
        simp only [nesting, run]
        have hb := incr_index_bounds st.c
        have h1 := ihL ⟨st.c.incr, st.log⟩ hs hb.1 hb.2
        obtain ⟨h1neg, h1pos, h1ret⟩ := h1
        have h1negb : st.c.incr.index < 0 → nesting f Ctl.loop ⟨st.c.incr, st.log⟩ = 0 :=
          h1neg
        have h1posb : 0 ≤ st.c.incr.index →
            nesting f Ctl.loop ⟨st.c.incr, st.log⟩ ≤ H.length - st.c.incr.index.toNat := h1pos
        have hd1 : nesting f Ctl.loop ⟨st.c.incr, st.log⟩ + 1
            ≤ max 1 (H.length - st.c.index.toNat) := by
          by_cases hw : st.c.index = 127
          · have hwi := incr_index_wrap _ hw
            rw [h1negb (by omega)]
            exact le_max_left _ _
          · have hinc := incr_index_of_lt st.c (by omega) (by omega)
            have := h1posb (by omega)
            have hle : nesting f Ctl.loop ⟨st.c.incr, st.log⟩ + 1
                ≤ 1 ∨ nesting f Ctl.loop ⟨st.c.incr, st.log⟩ + 1
                ≤ H.length - st.c.index.toNat := by omega
            rcases hle with h | h
            · exact le_trans h (le_max_left _ _)
            · exact le_trans h (le_max_right _ _)
        have hh1 : (run f Ctl.loop ⟨st.c.incr, st.log⟩).st.c.handlers = st.c.handlers :=
          run_handlers f Ctl.loop ⟨st.c.incr, st.log⟩
        generalize nesting f Ctl.loop ⟨st.c.incr, st.log⟩ = d1 at hd1 ⊢
        generalize run f Ctl.loop ⟨st.c.incr, st.log⟩ = r1 at h1ret hh1 ⊢
        cases hout : r1.out with
        | returned =>
          simp only
          obtain ⟨h10, h1n, h1f, h1h⟩ := h1ret hout
          have h10b : 0 ≤ st.c.incr.index := h10
          have h1fb : st.c.incr.index ≤ r1.st.c.index ∨ 64 ≤ r1.st.c.index := h1f
          have hinc : st.c.incr.index = st.c.index + 1 := by
            by_cases hw : st.c.index = 127
            · have := incr_index_wrap _ hw
              omega
            · exact incr_index_of_lt st.c (by omega) (by omega)
          have h2 := ihB pos k r1.st (hh1.trans hs) (by omega) h1h
          obtain ⟨h2d, h2ret⟩ := h2
          have h2d1 : nesting f (Ctl.body pos k) r1.st ≤ 1 := by
            have hz : H.length - r1.st.c.index.toNat = 0 := by omega
            rw [hz] at h2d
            simpa using h2d
          refine ⟨Nat.max_le.mpr ⟨hd1, le_trans h2d1 (le_max_left _ _)⟩, fun hr => ?_⟩
          obtain ⟨h2f, h20, h2h⟩ := h2ret hr
          exact ⟨by omega, h20, h2h⟩
        | panicked why =>
          refine ⟨Nat.max_le.mpr ⟨hd1, Nat.zero_le _⟩, fun h => ?_⟩
          have h2 : r1.out = Outcome.returned := h
          rw [hout] at h2
          cases h2
        | outOfFuel =>
          refine ⟨Nat.max_le.mpr ⟨hd1, Nat.zero_le _⟩, fun h => ?_⟩
          have h2 : r1.out = Outcome.returned := h
          rw [hout] at h2
          cases h2
      | abort code k =>
        simp only [nesting, run]
        obtain ⟨st1, hst1⟩ : ∃ s : St, s = ⟨st.c.Abort code, st.log ++ [Event.abort pos]⟩ :=
          ⟨_, rfl⟩
        rw [← hst1]
        have hidx : st1.c.index = 63 := by
          rw [hst1]
          exact AbortIndex_eq
        have hhs : st1.c.handlers = H := by
          rw [hst1]
          exact hs
        have h1 := ihB pos k st1 hhs (by omega) (by omega)
        obtain ⟨h1d, h1ret⟩ := h1
        have hz : max 1 (H.length - st1.c.index.toNat) = 1 := by
          have : H.length - st1.c.index.toNat ≤ 1 := by omega
          exact Nat.max_eq_left this
        rw [hz] at h1d
        refine ⟨le_trans h1d (le_max_left _ _), fun hr => ?_⟩
        obtain ⟨h1f, h10, h1h⟩ := h1ret hr
        exact ⟨by omega, h10, h1h⟩
      | error err meta k =>
        simp only [nesting, run]
        cases herr : st.c.Error err meta with
        | none => exact ⟨Nat.zero_le _, fun h => Outcome.noConfusion h⟩
        | some c1 =>
          obtain ⟨e, -, rfl⟩ := (Error_some_iff _ _ _ _).mp herr
          simp only
          exact ihB pos k
            ⟨{ st.c with Errors := st.c.Errors ++ [{ Message := e.Error, Meta := meta }] },
              st.log⟩ hs hlo hhi
      | fail code err k =>
        simp only [nesting, run]
        cases herr : st.c.Fail code err with
        | none => exact ⟨Nat.zero_le _, fun h => Outcome.noConfusion h⟩
        | some c1 =>
          obtain ⟨hh, hi⟩ := Fail_index _ _ _ _ herr
          simp only
          obtain ⟨st1, hst1⟩ : ∃ s : St, s = ⟨c1, st.log ++ [Event.abort pos]⟩ := ⟨_, rfl⟩
          rw [← hst1]
          have hidx : st1.c.index = 63 := by
            rw [hst1]
            exact hi
          have hhs : st1.c.handlers = H := by
            rw [hst1]
            exact hh.trans hs
          have h1 := ihB pos k st1 hhs (by omega) (by omega)
          obtain ⟨h1d, h1ret⟩ := h1
          have hz : max 1 (H.length - st1.c.index.toNat) = 1 := by
            have : H.length - st1.c.index.toNat ≤ 1 := by omega
            exact Nat.max_eq_left this
          rw [hz] at h1d
          refine ⟨le_trans h1d (le_max_left _ _), fun hr => ?_⟩
          obtain ⟨h1f, h10, h1h⟩ := h1ret hr
          exact ⟨by omega, h10, h1h⟩
      | set key item k =>
        simp only [nesting, run]
        exact ihB pos k ⟨st.c.Set key item, st.log⟩ hs hlo hhi
      | get key k =>
        simp only [nesting, run]
        cases st.c.Get key with
        | none => exact ⟨Nat.zero_le _, fun h => Outcome.noConfusion h⟩
        | some v => exact ihB pos k st hs hlo hhi
      | writeHeader code k =>
        simp only [nesting, run]
        exact ihB pos k ⟨{ st.c with Writer := st.c.Writer.WriteHeader code }, st.log⟩ hs hlo
          hhi
      | test q t e =>
        simp only [nesting, run]
        by_cases hq : q st.c.Writer st.c.Keys st.c.Errors = true
        · rw [if_pos hq, if_pos hq]
          exact ihB pos t st hs hlo hhi
        · rw [if_neg hq, if_neg hq]
          exact ihB pos e st hs hlo hhi

/-- The bound on the nesting is reached: with three wrap-style handlers the third
re-entrant `Next` call runs inside the second, which runs inside the first. -/
theorem nextDepth_three_wraps :
    (createContext [] req0 [] [wrap, wrap, wrap]).NextDepth 30 = 3 ∧
    (createContext [] req0 [] [plain, plain]).NextDepth 30 = 0 := by
  decide

/-- C17, amended: for every chain of at most 64 handlers, whatever its handlers do through
the context operations, a `Next` call on a fresh context ends, by returning or by a panic
(fuel `chainFuel H` suffices for the model), after at most `N` handler invocations, and the
nesting of re-entrant `Next` calls never exceeds the chain length `N`. -/
theorem C17_next_ends (H : List HandlerFunc) (hH : H.length ≤ 64)
    (w : List SinkCall) (req : Request) (params : List (String × String))
    (fuel : Nat) (hf : chainFuel H ≤ fuel) :
    ((createContext w req params H).Next fuel).out ≠ Outcome.outOfFuel ∧
    (calls ((createContext w req params H).Next fuel).st.log).length ≤ H.length ∧
    (∀ d : Nat, (createContext w req params H).NextDepth d ≤ H.length) := by
  have hi : (createContext w req params H).incr.index = 0 := by
    show int8 (-1 + 1) = 0
    decide
  have hneed : loopNeed H (createContext w req params H).incr.index ≤ fuel := by
    rw [hi]
    exact hf
  have h := (run_ends H hH fuel).1 ⟨(createContext w req params H).incr, []⟩ rfl
    (by rw [hi]; decide) (by rw [hi]; decide) hneed
  have hs := (run_safe H.length hH fuel Ctl.loop _ (fresh_loopInv w req params H)).1
  refine ⟨h.1, length_le_of_nodup_bound _ _ hs.nodup hs.bound, fun d => ?_⟩
  have hd := ((run_nesting H hH d).1 ⟨(createContext w req params H).incr, []⟩ rfl
    (by rw [hi]; decide) (by rw [hi]; decide)).2.1 (by rw [hi])
  have hd2 : nesting d Ctl.loop ⟨(createContext w req params H).incr, []⟩
      ≤ H.length - (createContext w req params H).incr.index.toNat := hd
  exact le_trans hd2 (Nat.sub_le _ _)

theorem C17_next_ends_witness :
    ((createContext [] req0 [] [wrapAbort, wrap, forbid, plain]).Next 20).out
      ≠ Outcome.outOfFuel ∧
    (calls ((createContext [] req0 [] [wrapAbort, wrap, forbid, plain]).Next 20).st.log).length
      ≤ [wrapAbort, wrap, forbid, plain].length ∧
    (∀ d : Nat, (createContext [] req0 [] [wrapAbort, wrap, forbid, plain]).NextDepth d
      ≤ [wrapAbort, wrap, forbid, plain].length) :=
  C17_next_ends [wrapAbort, wrap, forbid, plain] (by decide) [] req0 [] 20 (by decide)

end Gogin
